import Mathlib

/-!
Verification development for the rune compiler core: a shallow embedding of
the unit builder (static pools, imports, meta insertion, assembly merging and
jump translation), the cache freshness check, number-literal resolution and
path hashing, together with theorems settling the specification claims.

Machine integers are modelled as Nat/Int with explicit two-power wrapping
where the source uses wrapping arithmetic.  Rust HashMap values are modelled
as association lists whose insert replaces the bound value and returns the
previous one, exactly like HashMap::insert.
-/

set_option autoImplicit false

namespace Rune

/-- A 64-bit content hash (from crates/st/src/hash.rs and runestick).  The
claims never depend on the concrete hash value, so the hash functions are
taken as parameters; the fingerprint itself is just a number. -/
abbrev Hash := Nat

/-- A byte span in a source (runestick Span: start and end byte offsets). -/
abbrev Span := Nat × Nat

/-- One component of an item path.  Modelled from the spec: a component is a
named identifier, a block-local disambiguator, a closure disambiguator or an
async-block disambiguator (the runestick Item code is not under src/). -/
inductive Component where
  | str (s : String)
  | block (n : Nat)
  | closure (n : Nat)
  | asyncBlock (n : Nat)
  deriving DecidableEq, Repr

/-- An item path: an ordered sequence of components.  Modelled from the spec:
push appends, pop removes the last component, last peeks at it. -/
abbrev Item := List Component

/-- Construct an item of named components, as Item::of over strings. -/
def Item.ofStrings (l : List String) : Item :=
  l.map Component.str

/-- An assembly label: a name together with a per-assembly disambiguator
(runestick Label, not under src/; modelled from the spec as an opaque name
plus counter). -/
abbrev Label := String × Nat

/-- Association list standing in for Rust HashMap.  Only lookup, replacing
insert and extend are needed by the embedded code. -/
abbrev AList (K V : Type) := List (K × V)

namespace AList

variable {K V : Type} [DecidableEq K]

/-- First-match lookup, the observable behaviour of HashMap::get. -/
def lookup : AList K V → K → Option V
  | [], _ => none
  | (k', v') :: rest, k => if k' = k then some v' else lookup rest k

/-- HashMap::insert: bind the key to the value, returning the previously
bound value if any (the old binding is replaced, not shadowed). -/
def insertHM : AList K V → K → V → Option V × AList K V
  | [], k, v => (none, [(k, v)])
  | (k', v') :: rest, k, v =>
    if k' = k then (some v', (k, v) :: rest)
    else
      let r := insertHM rest k v
      (r.1, (k', v') :: r.2)

/-- HashMap::extend: insert every binding of the second map into the first. -/
def extendHM (m other : AList K V) : AList K V :=
  other.foldl (fun acc kv => (insertHM acc kv.1 kv.2).2) m

end AList

/-! ## Signed-integer widening and wrapping (translate_offset arithmetic)

isize is modelled as integers in the interval [-2^63, 2^63).  try_from on a
usize succeeds exactly when the value is below 2^63; overflowing_add and
overflowing_sub wrap modulo 2^64 into that interval. -/

/-- Reduce an integer into the isize interval [-2^63, 2^63), the result of
Rust overflowing (wrapping) arithmetic on isize. -/
def wrap64 (x : Int) : Int :=
  (x + 2 ^ 63) % 2 ^ 64 - 2 ^ 63

/-- isize::try_from for a usize value: succeeds iff the value fits. -/
def usizeToIsize (n : Nat) : Option Int :=
  if n < 2 ^ 63 then some (n : Int) else none

/-! ## Instructions, assemblies and the unit builder state

From src/crates/rune/src/compiling/unit_builder.rs.  Only the jump-relevant
constructors of the runestick Inst enum are modelled individually; every
other instruction is carried opaquely by the `raw` constructor. -/

/-- How a function is called (runestick Call, not under src/); opaque tag. -/
abbrev Call := Nat

/-- A resolved VM instruction (runestick Inst; jump forms modelled
individually, all other instructions are opaque tags). -/
inductive Inst where
  | jump (offset : Int)
  | jumpIf (offset : Int)
  | jumpIfNot (offset : Int)
  | jumpIfOrPop (offset : Int)
  | jumpIfNotOrPop (offset : Int)
  | jumpIfBranch (branch : Int) (offset : Int)
  | popAndJumpIfNot (count : Nat) (offset : Int)
  | other (tag : Nat)
  deriving DecidableEq, Repr

/-- An assembly instruction: a raw instruction or a label-addressed jump
placeholder (AssemblyInst in src/crates/rune/src/compiling). -/
inductive AssemblyInst where
  | jump (label : Label)
  | jumpIf (label : Label)
  | jumpIfNot (label : Label)
  | jumpIfOrPop (label : Label)
  | jumpIfNotOrPop (label : Label)
  | jumpIfBranch (branch : Int) (label : Label)
  | popAndJumpIfNot (count : Nat) (label : Label)
  | raw (inst : Inst)
  deriving DecidableEq, Repr

/-- Per-function assembly buffer (Assembly in src/crates/rune/src/compiling):
instructions with spans, label positions, reverse label positions, comments,
the label counter and the required-function registry. -/
structure Assembly where
  instructions : List (AssemblyInst × Span)
  labels : AList Label Nat
  labelsRev : AList Nat Label
  comments : AList Nat (List String)
  labelCount : Nat
  requiredFunctions : AList Hash (List (Span × Nat))
  deriving Repr

/-- Signature arguments for debug info (runestick DebugArgs, not under
src/; modelled from the spec's debug signature description). -/
inductive DebugArgs where
  | emptyArgs
  | tupleArgs (n : Nat)
  | named (args : List String)
  deriving DecidableEq, Repr

/-- A debug signature: item path plus argument description (runestick
DebugSignature, not under src/). -/
structure DebugSignature where
  path : Item
  args : DebugArgs
  deriving DecidableEq, Repr

/-- A per-instruction debug record (runestick DebugInst, not under src/):
source id, span, optional comment and optional label. -/
structure DebugInst where
  sourceId : Nat
  span : Span
  comment : Option String
  label : Option Label
  deriving DecidableEq, Repr

/-- Debug information for a unit (runestick DebugInfo, not under src/). -/
structure DebugInfo where
  instructions : List DebugInst
  functions : AList Hash DebugSignature
  functionsRev : AList Nat Hash
  deriving DecidableEq, Repr

/-- The empty debug info, Default::default(). -/
def DebugInfo.empty : DebugInfo :=
  { instructions := [], functions := [], functionsRev := [] }

/-- A callable record in the functions table (runestick UnitFn). -/
inductive UnitFn where
  | offset (off : Nat) (call : Call) (args : Nat)
  | unitStruct (hash : Hash)
  | tupleStruct (hash : Hash) (args : Nat)
  | unitVariant (hash : Hash)
  | tupleVariant (hash : Hash) (args : Nat)
  deriving DecidableEq, Repr

/-- Type information entry (runestick UnitTypeInfo: hash plus type-of, the
latter being a wrapper around a hash). -/
structure UnitTypeInfo where
  hash : Hash
  typeOf : Hash
  deriving DecidableEq, Repr

/-- Runtime type information for a non-variant type (runestick Rtti). -/
structure Rtti where
  hash : Hash
  item : Item
  deriving DecidableEq, Repr

/-- Runtime type information for an enum variant (runestick VariantRtti). -/
structure VariantRtti where
  enumHash : Hash
  hash : Hash
  item : Item
  deriving DecidableEq, Repr

/-- The key of an import: where it is located and the component imported. -/
structure ImportKey where
  item : Item
  component : Component
  deriving DecidableEq, Repr

/-- An imported entry: the item being imported and the optional span. -/
structure ImportEntry where
  item : Item
  span : Option (Span × Nat)
  deriving DecidableEq, Repr

/-- Compile-time meta kinds (runestick CompileMetaKind restricted to the
payload fields insert_meta reads: hashes, items and argument counts). -/
inductive CompileMetaKind where
  | unitStruct (hash : Hash) (item : Item)
  | tupleStruct (hash : Hash) (item : Item) (args : Nat)
  | struct_ (item : Item)
  | unitVariant (enumItem : Item) (hash : Hash) (item : Item)
  | tupleVariant (enumItem : Item) (hash : Hash) (item : Item) (args : Nat)
  | structVariant (enumItem : Item) (item : Item)
  | enum_ (item : Item)
  | function (item : Item)
  | closure (item : Item)
  | asyncBlock (item : Item)
  | macroItem (item : Item)
  | constItem (item : Item)
  | constFn (item : Item)
  deriving DecidableEq, Repr

/-- Compile-time meta for a named entity; insert_meta only reads the kind. -/
structure CompileMeta where
  kind : CompileMetaKind
  deriving DecidableEq, Repr

/-- Errors raised when building a new unit (UnitBuilderErrorKind). -/
inductive UnitBuilderErrorKind where
  | functionConflict (existing : DebugSignature)
  | constantConflict (item : Item) (hash : Hash)
  | unsupportedMeta (existing : Item)
  | staticStringMissing (hash : Hash) (slot : Nat)
  | staticBytesMissing (hash : Hash) (slot : Nat)
  | staticStringHashConflict (hash : Hash) (current existing : String)
  | staticBytesHashConflict (hash : Hash) (current existing : List Nat)
  | staticObjectKeysMissing (hash : Hash) (slot : Nat)
  | staticObjectKeysHashConflict (hash : Hash) (current existing : List String)
  | duplicateLabel (label : Label)
  | missingLabel (label : Label)
  | baseOverflow
  | offsetOverflow
  deriving DecidableEq, Repr

/-- A unit builder error: a span and a kind (the error! wrapper). -/
structure UnitBuilderError where
  span : Span
  kind : UnitBuilderErrorKind
  deriving DecidableEq, Repr

/-- Errors raised by insert_meta (InsertMetaError). -/
inductive InsertMetaError where
  | functionConflict (existing : DebugSignature)
  | variantRttiConflict (hash : Hash)
  | typeRttiConflict (hash : Hash)
  | typeConflict (existing : Item)
  | metaConflict (current existing : CompileMeta)
  deriving DecidableEq, Repr

/-- The inner state of the unit builder (struct Inner).  The names trie is
modelled as the insertion list of items; everything else mirrors the source
field for field. -/
structure Inner where
  instructions : List Inst
  imports : AList ImportKey ImportEntry
  meta : AList Item CompileMeta
  functions : AList Hash UnitFn
  types : AList Hash UnitTypeInfo
  functionsRev : AList Nat Hash
  staticStrings : List String
  staticStringRev : AList Hash Nat
  staticBytes : List (List Nat)
  staticBytesRev : AList Hash Nat
  staticObjectKeys : List (List String)
  staticObjectKeysRev : AList Hash Nat
  rtti : AList Hash Rtti
  variantRtti : AList Hash VariantRtti
  labelCount : Nat
  requiredFunctions : AList Hash (List (Span × Nat))
  names : List Item
  debug : Option DebugInfo
  deriving Repr

/-- The default (empty) inner state, Inner::default(). -/
def emptyInner : Inner where
  instructions := []
  imports := []
  meta := []
  functions := []
  types := []
  functionsRev := []
  staticStrings := []
  staticStringRev := []
  staticBytes := []
  staticBytesRev := []
  staticObjectKeys := []
  staticObjectKeysRev := []
  rtti := []
  variantRtti := []
  labelCount := 0
  requiredFunctions := []
  names := []
  debug := none

/-! ## Jump translation (translate_offset and add_assembly) -/

/-- translate_offset: look the label up, widen both positions to isize
(erroring with BaseOverflow / OffsetOverflow on failure), then compute
label-position - (base + 1) with overflowing (wrapping) isize arithmetic. -/
def translateOffset (span : Span) (base : Nat) (label : Label)
    (labels : AList Label Nat) : Except UnitBuilderError Int :=
  match labels.lookup label with
  | none => .error ⟨span, .missingLabel label⟩
  | some offset =>
    match usizeToIsize base with
    | none => .error ⟨span, .baseOverflow⟩
    | some b =>
      match usizeToIsize offset with
      | none => .error ⟨span, .offsetOverflow⟩
      | some o =>
        let b1 := wrap64 (b + 1)
        .ok (wrap64 (o - b1))

/-- The target label of a jump-form assembly instruction, if any. -/
def AssemblyInst.jumpLabel : AssemblyInst → Option Label
  | .jump l => some l
  | .jumpIf l => some l
  | .jumpIfNot l => some l
  | .jumpIfOrPop l => some l
  | .jumpIfNotOrPop l => some l
  | .jumpIfBranch _ l => some l
  | .popAndJumpIfNot _ l => some l
  | .raw _ => none

/-- The raw jump instruction a jump form resolves to at a given offset. -/
def AssemblyInst.withOffset : AssemblyInst → Int → Option Inst
  | .jump _, o => some (.jump o)
  | .jumpIf _, o => some (.jumpIf o)
  | .jumpIfNot _, o => some (.jumpIfNot o)
  | .jumpIfOrPop _, o => some (.jumpIfOrPop o)
  | .jumpIfNotOrPop _, o => some (.jumpIfNotOrPop o)
  | .jumpIfBranch b _, o => some (.jumpIfBranch b o)
  | .popAndJumpIfNot c _, o => some (.popAndJumpIfNot c o)
  | .raw _, _ => none

/-- Translate one assembly instruction into the emitted instruction: jump
forms go through translate_offset, raw instructions are passed through. -/
def emitInst (labels : AList Label Nat) (pos : Nat) (span : Span) :
    AssemblyInst → Except UnitBuilderError Inst
  | .jump l => (translateOffset span pos l labels).map Inst.jump
  | .jumpIf l => (translateOffset span pos l labels).map Inst.jumpIf
  | .jumpIfNot l => (translateOffset span pos l labels).map Inst.jumpIfNot
  | .jumpIfOrPop l => (translateOffset span pos l labels).map Inst.jumpIfOrPop
  | .jumpIfNotOrPop l => (translateOffset span pos l labels).map Inst.jumpIfNotOrPop
  | .jumpIfBranch b l => (translateOffset span pos l labels).map (Inst.jumpIfBranch b)
  | .popAndJumpIfNot c l => (translateOffset span pos l labels).map (Inst.popAndJumpIfNot c)
  | .raw r => .ok r

/-- How a Label is rendered by Display (runestick, not under src/; the
claims never depend on the rendering). -/
def labelDisplay (l : Label) : String :=
  l.1 ++ "_" ++ toString l.2

/-- The automatic comment attached to a jump form (the format of
add_assembly); raw instructions carry none. -/
def AssemblyInst.autoComment : AssemblyInst → Option String
  | .raw _ => none
  | i => (i.jumpLabel).map fun l => "label:" ++ labelDisplay l

/-- Join the automatic jump comment with the user comments at a position,
as add_assembly does (chained and joined with a semicolon separator). -/
def joinComments (auto : Option String) (user : Option (List String)) :
    Option String :=
  match user with
  | none => auto
  | some l => some (String.intercalate "; " (auto.toList ++ l))

/-- Push one debug instruction record, creating debug info on demand. -/
def Inner.pushDebugInst (st : Inner) (d : DebugInst) : Inner :=
  let dbg := st.debug.getD DebugInfo.empty
  { st with debug := some { dbg with instructions := dbg.instructions ++ [d] } }

/-- The instruction-emission loop of add_assembly, one instruction at a
time starting at the given assembly position. -/
def addInsts (labels : AList Label Nat) (labelsRev : AList Nat Label)
    (comments : AList Nat (List String)) (sourceId : Nat) :
    Nat → List (AssemblyInst × Span) → Inner → Except UnitBuilderError Inner
  | _, [], st => .ok st
  | pos, (inst, span) :: rest, st =>
    match emitInst labels pos span inst with
    | .error e => .error e
    | .ok i =>
      let comment := joinComments inst.autoComment (comments.lookup pos)
      let label := labelsRev.lookup pos
      let st := { st with instructions := st.instructions ++ [i] }
      let st := st.pushDebugInst ⟨sourceId, span, comment, label⟩
      addInsts labels labelsRev comments sourceId (pos + 1) rest st

/-- add_assembly: propagate the label count, extend the required-function
registry, then translate and emit every instruction in order. -/
def addAssembly (st : Inner) (sourceId : Nat) (a : Assembly) :
    Except UnitBuilderError Inner :=
  let st := { st with
    labelCount := a.labelCount,
    requiredFunctions := AList.extendHM st.requiredFunctions a.requiredFunctions }
  addInsts a.labels a.labelsRev a.comments sourceId 0 a.instructions st

/-! ## Static pools (new_static_string, new_static_bytes,
new_static_object_keys)

The content hash functions live in runestick; the claims never depend on
their concrete values, so they are passed as parameters.  Each operation
returns its result together with the builder state, mirroring the in-place
mutation of the source: the state is returned unchanged on every error
path, exactly as the source performs no mutation before an early return. -/

/-- new_static_string: return the existing slot when an identical string is
already interned, raise a hash-conflict error when the slot holds a
different string, otherwise append and index the new slot. -/
def newStaticString (hashStr : String → Hash) (span : Span) (current : String)
    (st : Inner) : Except UnitBuilderError Nat × Inner :=
  let hash := hashStr current
  match st.staticStringRev.lookup hash with
  | some existingSlot =>
    match st.staticStrings[existingSlot]? with
    | none => (.error ⟨span, .staticStringMissing hash existingSlot⟩, st)
    | some existing =>
      if existing ≠ current then
        (.error ⟨span, .staticStringHashConflict hash current existing⟩, st)
      else
        (.ok existingSlot, st)
  | none =>
    let newSlot := st.staticStrings.length
    (.ok newSlot,
      { st with
        staticStrings := st.staticStrings ++ [current],
        staticStringRev := (st.staticStringRev.insertHM hash newSlot).2 })

/-- new_static_bytes, same structure over raw byte strings. -/
def newStaticBytes (hashBytes : List Nat → Hash) (span : Span)
    (current : List Nat) (st : Inner) : Except UnitBuilderError Nat × Inner :=
  let hash := hashBytes current
  match st.staticBytesRev.lookup hash with
  | some existingSlot =>
    match st.staticBytes[existingSlot]? with
    | none => (.error ⟨span, .staticBytesMissing hash existingSlot⟩, st)
    | some existing =>
      if existing ≠ current then
        (.error ⟨span, .staticBytesHashConflict hash current existing⟩, st)
      else
        (.ok existingSlot, st)
  | none =>
    let newSlot := st.staticBytes.length
    (.ok newSlot,
      { st with
        staticBytes := st.staticBytes ++ [current],
        staticBytesRev := (st.staticBytesRev.insertHM hash newSlot).2 })

/-- new_static_object_keys, same structure over object-key schemas. -/
def newStaticObjectKeys (hashKeys : List String → Hash) (span : Span)
    (current : List String) (st : Inner) :
    Except UnitBuilderError Nat × Inner :=
  let hash := hashKeys current
  match st.staticObjectKeysRev.lookup hash with
  | some existingSlot =>
    match st.staticObjectKeys[existingSlot]? with
    | none => (.error ⟨span, .staticObjectKeysMissing hash existingSlot⟩, st)
    | some existing =>
      if existing ≠ current then
        (.error ⟨span, .staticObjectKeysHashConflict hash current existing⟩, st)
      else
        (.ok existingSlot, st)
  | none =>
    let newSlot := st.staticObjectKeys.length
    (.ok newSlot,
      { st with
        staticObjectKeys := st.staticObjectKeys ++ [current],
        staticObjectKeysRev := (st.staticObjectKeysRev.insertHM hash newSlot).2 })

/-- Run a whole sequence of new_static_string calls on one builder,
collecting the returned slots; stops at the first error. -/
def runStrings (hashStr : String → Hash) :
    List String → Inner → Except UnitBuilderError (List Nat × Inner)
  | [], st => .ok ([], st)
  | s :: rest, st =>
    match newStaticString hashStr (0, 0) s st with
    | (.error e, _) => .error e
    | (.ok slot, st') =>
      match runStrings hashStr rest st' with
      | .error e => .error e
      | .ok (slots, st'') => .ok (slot :: slots, st'')

/-! ## Imports (new_import, lookup_import_by_name, convert_path) -/

/-- new_import: if the path has a last component, register an entry mapping
the key (at, last) to the full path with the given span; always succeeds. -/
def newImport (at_ : Item) (path : Item) (span : Span) (sourceId : Nat)
    (st : Inner) : Except UnitBuilderError Unit × Inner :=
  match path.getLast? with
  | none => (.ok (), st)
  | some last =>
    let key : ImportKey := ⟨at_, last⟩
    let entry : ImportEntry := ⟨path, some (span, sourceId)⟩
    (.ok (), { st with imports := (st.imports.insertHM key entry).2 })

/-- lookup_import_by_name: walk the base item outward, checking the key
(base, local) before each pop of the last component, until a match is found
or the pop on the empty item fails. -/
def lookupImportByName (imports : AList ImportKey ImportEntry) :
    Item → String → Option Item
  | base, localName =>
    match imports.lookup ⟨base, .str localName⟩ with
    | some entry => some entry.item
    | none =>
      match base with
      | [] => none
      | x :: xs => lookupImportByName imports ((x :: xs).dropLast) localName
  termination_by base _ => base.length
  decreasing_by
    simp [List.length_dropLast]

/-- All prefixes of an item from the item itself down to the empty item,
written from the spec's words for the refinement proof of the lookup. -/
def prefixList : Item → List Item
  | [] => [[]]
  | x :: xs => (x :: xs) :: prefixList ((x :: xs).dropLast)
  termination_by base => base.length
  decreasing_by
    simp [List.length_dropLast]

/-- convert_path: resolve the leading identifier through the import table,
falling back to the single-component item, then append the remaining path
segments.  Segment resolution (storage and source) happens outside of the
unit builder, so the segments arrive as plain strings. -/
def convertPath (imports : AList ImportKey ImportEntry) (base : Item)
    (first : String) (rest : List String) : Item :=
  let imported :=
    match lookupImportByName imports base first with
    | some path => path
    | none => Item.ofStrings [first]
  imported ++ rest.map Component.str

/-- The default prelude of with_default_prelude: the import table seeded
with the standard names, in source insertion order. -/
def withDefaultPrelude : Inner :=
  let ins := fun (st : Inner) (c : String) (path : List String) =>
    { st with
      imports :=
        (st.imports.insertHM ⟨[], .str c⟩ ⟨Item.ofStrings path, none⟩).2 }
  let st := emptyInner
  let st := ins st "dbg" ["std", "dbg"]
  let st := ins st "drop" ["std", "drop"]
  let st := ins st "is_readable" ["std", "is_readable"]
  let st := ins st "is_writable" ["std", "is_writable"]
  let st := ins st "panic" ["std", "panic"]
  let st := ins st "print" ["std", "print"]
  let st := ins st "println" ["std", "println"]
  let st := ins st "unit" ["std", "unit"]
  let st := ins st "bool" ["std", "bool"]
  let st := ins st "byte" ["std", "byte"]
  let st := ins st "char" ["std", "char"]
  let st := ins st "int" ["std", "int"]
  let st := ins st "float" ["std", "float"]
  let st := ins st "Object" ["std", "object", "Object"]
  let st := ins st "Vec" ["std", "vec", "Vec"]
  let st := ins st "String" ["std", "string", "String"]
  let st := ins st "Result" ["std", "result", "Result"]
  let st := ins st "Err" ["std", "result", "Result", "Err"]
  let st := ins st "Ok" ["std", "result", "Result", "Ok"]
  let st := ins st "Option" ["std", "option", "Option"]
  let st := ins st "Some" ["std", "option", "Option", "Some"]
  let st := ins st "None" ["std", "option", "Option", "None"]
  st

/-! ## Meta insertion (insert_meta) -/

/-- Insert a signature into the debug functions table, creating debug info
on demand (debug_info_mut). -/
def Inner.insertDebugFunction (st : Inner) (h : Hash) (sig : DebugSignature) :
    Inner :=
  let dbg := st.debug.getD DebugInfo.empty
  { st with debug := some { dbg with functions := (dbg.functions.insertHM h sig).2 } }

/-- The final step of insert_meta: store the meta under its item, erroring
with MetaConflict when an entry already exists. -/
def finishMeta (meta : CompileMeta) (item : Item) (st : Inner) :
    Except InsertMetaError Unit × Inner :=
  let r := st.meta.insertHM item meta
  let st := { st with meta := r.2 }
  match r.1 with
  | some existing => (.error (.metaConflict meta existing), st)
  | none => (.ok (), st)

/-- insert_meta: register a semantic item in the tables its kind affects,
in the exact insertion-then-check order of the source.  Each HashMap insert
replaces the previous binding before the conflict is reported, so a failed
call can leave the touched table holding the new value. -/
def insertMeta (typeHash : Item → Hash) (meta : CompileMeta) (st : Inner) :
    Except InsertMetaError Unit × Inner :=
  match meta.kind with
  | .unitStruct hash item =>
    let info := UnitFn.unitStruct hash
    let signature : DebugSignature := ⟨item, .emptyArgs⟩
    let r := st.rtti.insertHM hash ⟨hash, item⟩
    let st := { st with rtti := r.2 }
    if r.1.isSome then (.error (.typeRttiConflict hash), st) else
    let r := st.functions.insertHM hash info
    let st := { st with functions := r.2 }
    if r.1.isSome then (.error (.functionConflict signature), st) else
    let r := st.types.insertHM hash ⟨hash, hash⟩
    let st := { st with types := r.2 }
    if r.1.isSome then (.error (.typeConflict item), st) else
    finishMeta meta item (st.insertDebugFunction hash signature)
  | .tupleStruct hash item args =>
    let info := UnitFn.tupleStruct hash args
    let signature : DebugSignature := ⟨item, .tupleArgs args⟩
    let r := st.rtti.insertHM hash ⟨hash, item⟩
    let st := { st with rtti := r.2 }
    if r.1.isSome then (.error (.typeRttiConflict hash), st) else
    let r := st.functions.insertHM hash info
    let st := { st with functions := r.2 }
    if r.1.isSome then (.error (.functionConflict signature), st) else
    let r := st.types.insertHM hash ⟨hash, hash⟩
    let st := { st with types := r.2 }
    if r.1.isSome then (.error (.typeConflict item), st) else
    finishMeta meta item (st.insertDebugFunction hash signature)
  | .struct_ item =>
    let hash := typeHash item
    let r := st.rtti.insertHM hash ⟨hash, item⟩
    let st := { st with rtti := r.2 }
    if r.1.isSome then (.error (.typeRttiConflict hash), st) else
    let r := st.types.insertHM hash ⟨hash, hash⟩
    let st := { st with types := r.2 }
    if r.1.isSome then (.error (.typeConflict item), st) else
    finishMeta meta item st
  | .unitVariant enumItem hash item =>
    let enumHash := typeHash enumItem
    let r := st.variantRtti.insertHM hash ⟨enumHash, hash, item⟩
    let st := { st with variantRtti := r.2 }
    if r.1.isSome then (.error (.variantRttiConflict hash), st) else
    let info := UnitFn.unitVariant hash
    let signature : DebugSignature := ⟨item, .emptyArgs⟩
    let r := st.functions.insertHM hash info
    let st := { st with functions := r.2 }
    if r.1.isSome then (.error (.functionConflict signature), st) else
    let r := st.types.insertHM hash ⟨hash, enumHash⟩
    let st := { st with types := r.2 }
    if r.1.isSome then (.error (.typeConflict item), st) else
    finishMeta meta item (st.insertDebugFunction hash signature)
  | .tupleVariant enumItem hash item args =>
    let enumHash := typeHash enumItem
    let r := st.variantRtti.insertHM hash ⟨enumHash, hash, item⟩
    let st := { st with variantRtti := r.2 }
    if r.1.isSome then (.error (.variantRttiConflict hash), st) else
    let info := UnitFn.tupleVariant hash args
    let signature : DebugSignature := ⟨item, .tupleArgs args⟩
    let r := st.functions.insertHM hash info
    let st := { st with functions := r.2 }
    if r.1.isSome then (.error (.functionConflict signature), st) else
    let r := st.types.insertHM hash ⟨hash, enumHash⟩
    let st := { st with types := r.2 }
    if r.1.isSome then (.error (.typeConflict item), st) else
    finishMeta meta item (st.insertDebugFunction hash signature)
  | .structVariant enumItem item =>
    let hash := typeHash item
    let enumHash := typeHash enumItem
    let r := st.variantRtti.insertHM hash ⟨enumHash, hash, item⟩
    let st := { st with variantRtti := r.2 }
    if r.1.isSome then (.error (.variantRttiConflict hash), st) else
    let r := st.types.insertHM hash ⟨hash, enumHash⟩
    let st := { st with types := r.2 }
    if r.1.isSome then (.error (.typeConflict item), st) else
    finishMeta meta item st
  | .enum_ item =>
    let hash := typeHash item
    let r := st.types.insertHM hash ⟨hash, hash⟩
    let st := { st with types := r.2 }
    if r.1.isSome then (.error (.typeConflict item), st) else
    finishMeta meta item st
  | .function item => finishMeta meta item st
  | .closure item => finishMeta meta item st
  | .asyncBlock item => finishMeta meta item st
  | .macroItem item => finishMeta meta item st
  | .constItem item => finishMeta meta item st
  | .constFn item => finishMeta meta item st

/-- The hash a function-bearing meta kind registers in the functions table
(none for the other kinds). -/
def CompileMetaKind.fnHash : CompileMetaKind → Option Hash
  | .unitStruct hash _ => some hash
  | .tupleStruct hash _ _ => some hash
  | .unitVariant _ hash _ => some hash
  | .tupleVariant _ hash _ _ => some hash
  | _ => none

/-- The UnitFn value a function-bearing meta kind stores. -/
def CompileMetaKind.fnValue : CompileMetaKind → Option UnitFn
  | .unitStruct hash _ => some (.unitStruct hash)
  | .tupleStruct hash _ args => some (.tupleStruct hash args)
  | .unitVariant _ hash _ => some (.unitVariant hash)
  | .tupleVariant _ hash _ args => some (.tupleVariant hash args)
  | _ => none

/-- The debug signature a function-bearing meta kind builds. -/
def CompileMetaKind.fnSignature : CompileMetaKind → Option DebugSignature
  | .unitStruct _ item => some ⟨item, .emptyArgs⟩
  | .tupleStruct _ item args => some ⟨item, .tupleArgs args⟩
  | .unitVariant _ _ item => some ⟨item, .emptyArgs⟩
  | .tupleVariant _ _ item args => some ⟨item, .tupleArgs args⟩
  | _ => none

/-- Whether a function-bearing kind checks the type rtti table (struct
constructors) as opposed to the variant rtti table (variant constructors). -/
def CompileMetaKind.isStructKind : CompileMetaKind → Bool
  | .unitStruct _ _ => true
  | .tupleStruct _ _ _ => true
  | _ => false

/-- Whether an insert_meta result is a FunctionConflict error. -/
def isFunctionConflict : Except InsertMetaError Unit → Bool
  | .error (.functionConflict _) => true
  | _ => false

/-! ## Cache freshness (should_cache_be_used, rune-cli loader) -/

/-- The kind of an io error; only NotFound is inspected by the loader. -/
inductive IoErrorKind where
  | notFound
  | other (code : Nat)
  deriving DecidableEq, Repr

/-- An io error carrying its kind. -/
structure IoError where
  kind : IoErrorKind
  deriving DecidableEq, Repr

/-- File metadata: the modification time, itself a fallible query. -/
structure Metadata where
  modified : Except IoError Int
  deriving Repr

/-- A file path for the freshness check. -/
abbrev FsPath := String

/-- should_cache_be_used: stat the source (propagating every error), stat
the cache (absent cache means not fresh, other errors propagate), then
compare modification times. -/
def shouldCacheBeUsed (stat : FsPath → Except IoError Metadata)
    (source cached : FsPath) : Except IoError Bool :=
  match stat source with
  | .error e => .error e
  | .ok sourceMeta =>
    match stat cached with
    | .error e =>
      if e.kind = .notFound then .ok false else .error e
    | .ok cachedMeta =>
      match sourceMeta.modified with
      | .error e => .error e
      | .ok sourceTime =>
        match cachedMeta.modified with
        | .error e => .error e
        | .ok cachedTime => .ok (decide (sourceTime < cachedTime))

/-! ## Number literal resolution (LitNumber::resolve, non-fractional path)

The fractional path delegates to f64 parsing and is outside the claims;
the integer path is embedded exactly: strip the sign, strip the base
prefix, parse the digits in arbitrary precision, negate, then narrow. -/

/-- Number bases recognised by the lexer. -/
inductive NumberBase where
  | binary
  | octal
  | hex
  | decimal
  deriving DecidableEq, Repr

/-- How many prefix characters the base strips (0b, 0o, 0x). -/
def NumberBase.prefixLen : NumberBase → Nat
  | .decimal => 0
  | _ => 2

/-- The radix of a number base. -/
def NumberBase.radix : NumberBase → Nat
  | .binary => 2
  | .octal => 8
  | .hex => 16
  | .decimal => 10

/-- Parse errors surfaced by number resolution (the two reachable kinds). -/
inductive NumParseError where
  | badNumberLiteral
  | badNumberOutOfBounds
  deriving DecidableEq, Repr

/-- The value of one digit character, accepting 0-9, a-z and A-Z below the
radix (from_str_radix digit rules). -/
def digitValue (radix : Nat) (c : Char) : Option Nat :=
  let v :=
    if '0' ≤ c ∧ c ≤ '9' then some (c.toNat - '0'.toNat)
    else if 'a' ≤ c ∧ c ≤ 'z' then some (c.toNat - 'a'.toNat + 10)
    else if 'A' ≤ c ∧ c ≤ 'Z' then some (c.toNat - 'A'.toNat + 10)
    else none
  match v with
  | some d => if d < radix then some d else none
  | none => none

/-- BigUint::from_str_radix: all characters must be digits of the radix and
the string must be non-empty; the value is accumulated in arbitrary
precision. -/
def parseRadix (radix : Nat) (chars : List Char) : Option Nat :=
  match chars with
  | [] => none
  | _ =>
    chars.foldl
      (fun acc c =>
        match acc, digitValue radix c with
        | some a, some d => some (a * radix + d)
        | _, _ => none)
      (some 0)

/-- The integer path of LitNumber::resolve: strip the leading sign when the
literal is negative, strip the base prefix, parse in arbitrary precision,
negate before narrowing, and narrow to signed 64 bits (BadNumberOutOfBounds
when the value does not fit). -/
def litNumberResolveInt (isNegative : Bool) (base : NumberBase)
    (text : List Char) : Except NumParseError Int :=
  let text := if isNegative then text.drop 1 else text
  let digits := text.drop base.prefixLen
  match parseRadix base.radix digits with
  | none => .error .badNumberLiteral
  | some n =>
    let narrowed : Option Int :=
      if isNegative then
        if -(n : Int) < -(2 ^ 63 : Int) then none else some (-(n : Int))
      else
        if (n : Int) > 2 ^ 63 - 1 then none else some (n : Int)
    match narrowed with
    | none => .error .badNumberOutOfBounds
    | some v => .ok v

/-! ## Path hashing byte stream (Hash::path in crates/st/src/hash.rs)

Hash::path feeds the hasher the kind tag (a usize, eight bytes in native
byte order), then for each segment the segment's bytes, the 0xFF delimiter
byte appended by the str Hash implementation, and the separator 0x7F
written as a usize.  The hasher itself is opaque; the claims concern the
byte stream fed to it. -/

/-- The eight bytes of a usize value in little-endian (native) order. -/
def usizeBytes (n : Nat) : List Nat :=
  (List.range 8).map fun i => n / 256 ^ i % 256

/-- The bytes one path segment contributes to the hasher: the segment's
bytes, the str-hash delimiter 0xFF, then the separator 0x7F as a usize. -/
def segmentBytes (seg : List Nat) : List Nat :=
  seg ++ 0xff :: usizeBytes 0x7f

/-- The full byte stream Hash::path feeds to the hasher. -/
def pathStream (kind : Nat) (segments : List (List Nat)) : List Nat :=
  usizeBytes kind ++ (segments.map segmentBytes).flatten

/-! ## Concrete inputs used to evaluate the theorems -/

/-- Extract the state from a successful add_assembly, defaulting to the
empty state (used to name concrete results in closed statements). -/
def extractInner (r : Except UnitBuilderError Inner) : Inner :=
  match r with
  | .ok st => st
  | .error _ => emptyInner

/-- Extract the result of a successful pool-insertion run, defaulting to
no slots over the empty state. -/
def extractRun (r : Except UnitBuilderError (List Nat × Inner)) :
    List Nat × Inner :=
  match r with
  | .ok p => p
  | .error _ => ([], emptyInner)

/-- A two-instruction assembly: a jump at position 0 targeting the label
defined at position 1, and a raw instruction at position 1. -/
def demoAssembly : Assembly where
  instructions := [(.jump ("L", 0), (0, 1)), (.raw (.other 7), (1, 2))]
  labels := [(("L", 0), 1)]
  labelsRev := [(1, ("L", 0))]
  comments := []
  labelCount := 1
  requiredFunctions := []

/-- Consistency of a static string pool with its reverse map: every pool
entry is indexed by its own content hash.  This holds for every state the
pool operations can reach from the empty builder. -/
def StrPoolInv (hashStr : String → Hash) (st : Inner) : Prop :=
  ∀ i s, st.staticStrings[i]? = some s →
    st.staticStringRev.lookup (hashStr s) = some i

/-- A builder state holding one entry in each pool, used to exercise the
hash-conflict paths with length-valued hash functions. -/
def conflictDemoState : Inner :=
  { emptyInner with
    staticStrings := ["ab"]
    staticStringRev := [(2, 0)]
    staticBytes := [[1, 2]]
    staticBytesRev := [(2, 0)]
    staticObjectKeys := [["x"]]
    staticObjectKeysRev := [(1, 0)] }

/-! # Theorems -/

namespace AList

variable {K V : Type} [DecidableEq K]

@[simp]
theorem lookup_nil (k : K) : lookup ([] : AList K V) k = none := rfl

theorem lookup_insertHM_self (m : AList K V) (k : K) (v : V) :
    lookup (insertHM m k v).2 k = some v := by
  induction m with
  | nil => simp [insertHM, lookup]
  | cons hd tl ih =>
    by_cases h : hd.1 = k
    · simp [insertHM, h, lookup]
    · simp [insertHM, h, lookup, ih]

theorem lookup_insertHM_ne (m : AList K V) (k k' : K) (v : V) (h : k' ≠ k) :
    lookup (insertHM m k v).2 k' = lookup m k' := by
  have hne : ¬k = k' := fun hh => h hh.symm
  induction m with
  | nil => simp [insertHM, lookup, hne]
  | cons hd tl ih =>
    by_cases hk : hd.1 = k
    · simp [insertHM, hk, lookup, hne]
    · simp [insertHM, hk, lookup, ih]

theorem insertHM_fst (m : AList K V) (k : K) (v : V) :
    (insertHM m k v).1 = lookup m k := by
  induction m with
  | nil => simp [insertHM, lookup]
  | cons hd tl ih =>
    by_cases h : hd.1 = k
    · simp [insertHM, h, lookup]
    · simp [insertHM, h, lookup, ih]

end AList

theorem wrap64_eq_self {x : Int} (h1 : -(2 ^ 63) ≤ x) (h2 : x < 2 ^ 63) :
    wrap64 x = x := by
  unfold wrap64
  have h0 : (0 : Int) ≤ x + 2 ^ 63 := by omega
  have hlt : x + 2 ^ 63 < 2 ^ 64 := by omega
  rw [Int.emod_eq_of_lt h0 hlt]
  omega

theorem wrap64_add_mul (x : Int) (t : Int) : wrap64 (x + 2 ^ 64 * t) = wrap64 x := by
  unfold wrap64
  have : x + 2 ^ 64 * t + 2 ^ 63 = x + 2 ^ 63 + 2 ^ 64 * t := by ring
  rw [this, Int.add_mul_emod_self_left]

/-- The wrapped value is congruent to the original modulo 2^64. -/
theorem wrap64_sub_dvd (x : Int) : (2 ^ 64 : Int) ∣ (x - wrap64 x) := by
  unfold wrap64
  have := Int.emod_emod_of_dvd (x + 2 ^ 63) (dvd_refl (2 ^ 64 : Int))
  have h := Int.emod_add_ediv (x + 2 ^ 63) (2 ^ 64)
  refine ⟨(x + 2 ^ 63) / 2 ^ 64, ?_⟩
  omega

theorem wrap64_sub_wrap64 (a b : Int) : wrap64 (a - wrap64 b) = wrap64 (a - b) := by
  obtain ⟨t, ht⟩ := wrap64_sub_dvd b
  have : a - wrap64 b = a - b + 2 ^ 64 * t := by omega
  rw [this, wrap64_add_mul]

/-! ## Jump translation lemmas -/

/-- When both positions fit in isize, the wrapping arithmetic computes the
mathematical difference exactly: the result always lies in the isize
interval, so the two wraps cancel. -/
theorem translateOffset_ok {span : Span} {base q : Nat} {l : Label}
    {labels : AList Label Nat} (hl : labels.lookup l = some q)
    (hb : base < 2 ^ 63) (hq : q < 2 ^ 63) :
    translateOffset span base l labels = .ok ((q : Int) - ((base : Int) + 1)) := by
  unfold translateOffset usizeToIsize
  rw [hl]
  simp only [hb, hq, if_pos]
  rw [wrap64_sub_wrap64, wrap64_eq_self]
  · omega
  · omega

theorem translateOffset_baseOverflow {span : Span} {base q : Nat} {l : Label}
    {labels : AList Label Nat} (hl : labels.lookup l = some q)
    (hb : 2 ^ 63 ≤ base) :
    translateOffset span base l labels = .error ⟨span, .baseOverflow⟩ := by
  unfold translateOffset usizeToIsize
  rw [hl]
  have : ¬base < 2 ^ 63 := by omega
  simp only [this, if_neg, if_false]

theorem translateOffset_offsetOverflow {span : Span} {base q : Nat} {l : Label}
    {labels : AList Label Nat} (hl : labels.lookup l = some q)
    (hb : base < 2 ^ 63) (hq : 2 ^ 63 ≤ q) :
    translateOffset span base l labels = .error ⟨span, .offsetOverflow⟩ := by
  unfold translateOffset usizeToIsize
  rw [hl]
  have hq' : ¬q < 2 ^ 63 := by omega
  simp only [hb, hq', if_pos, if_neg, if_false]

/-- Inversion: a successful translation means both positions fit in isize
and the produced offset is exactly label-position - (base + 1). -/
theorem translateOffset_ok_inv {span : Span} {base q : Nat} {l : Label}
    {labels : AList Label Nat} {off : Int}
    (hl : labels.lookup l = some q)
    (h : translateOffset span base l labels = .ok off) :
    base < 2 ^ 63 ∧ q < 2 ^ 63 ∧ off = (q : Int) - ((base : Int) + 1) := by
  by_cases hb : base < 2 ^ 63
  · by_cases hq : q < 2 ^ 63
    · refine ⟨hb, hq, ?_⟩
      rw [translateOffset_ok hl hb hq] at h
      exact (Except.ok.injEq _ _ ▸ h.symm).symm ▸ rfl
    · rw [translateOffset_offsetOverflow hl hb (by omega)] at h
      exact absurd h (by simp)
  · rw [translateOffset_baseOverflow hl (by omega)] at h
    exact absurd h (by simp)

/-- C2 counterexample: at source position 2^63 - 1 (which fits in isize)
with the label at position 0, the computation of
label-position - (source-position + 1) overflows in the intermediate
wrapping addition, yet translate_offset returns a successful wrapped value
instead of raising an overflow error. -/
theorem translate_offset_wrap_counterexample :
    translateOffset (0, 0) (2 ^ 63 - 1) ("L", 0) [(("L", 0), 0)]
      = .ok (-(2 ^ 63)) := by
  rfl

/-- C2 (amended): during jump translation, if the jump's source position
does not fit in a signed integer the result is a BaseOverflow error, and if
it fits but the label's position does not, an OffsetOverflow error; the
subsequent addition and subtraction are performed with wrapping arithmetic
and never raise an error, and whenever both positions fit the computed
offset equals label-position - (source-position + 1) exactly (the
mathematical result always fits in isize, so the wrapping never changes
it). -/
theorem translate_offset_overflow (span : Span) (base q : Nat) (l : Label)
    (labels : AList Label Nat) (hl : labels.lookup l = some q) :
    (2 ^ 63 ≤ base →
      translateOffset span base l labels = .error ⟨span, .baseOverflow⟩) ∧
    (base < 2 ^ 63 → 2 ^ 63 ≤ q →
      translateOffset span base l labels = .error ⟨span, .offsetOverflow⟩) ∧
    (base < 2 ^ 63 → q < 2 ^ 63 →
      translateOffset span base l labels
        = .ok ((q : Int) - ((base : Int) + 1))) :=
  ⟨fun hb => translateOffset_baseOverflow hl hb,
   fun hb hq => translateOffset_offsetOverflow hl hb hq,
   fun hb hq => translateOffset_ok hl hb hq⟩

/-- Witness for the amended C2 theorem at concrete positions: a label at
position 2^63 (too large for isize) read from a jump at position 5 raises
OffsetOverflow. -/
theorem translate_offset_overflow_witness :
    (([(("L", 0), 2 ^ 63)] : AList Label Nat).lookup ("L", 0) = some (2 ^ 63)) ∧
    translateOffset (0, 0) 5 ("L", 0) [(("L", 0), 2 ^ 63)]
      = .error ⟨(0, 0), .offsetOverflow⟩ :=
  ⟨by rfl,
   (translate_offset_overflow (0, 0) 5 (2 ^ 63) ("L", 0) _ (by rfl)).2.1
     (by norm_num) (by norm_num)⟩

/-- The emission loop preserves already-emitted instructions, appends one
instruction per assembly instruction, and emits each one through emitInst
at its assembly position. -/
theorem addInsts_ok (labels : AList Label Nat) (labelsRev : AList Nat Label)
    (comments : AList Nat (List String)) (sid : Nat) :
    ∀ (l : List (AssemblyInst × Span)) (pos : Nat) (st st' : Inner),
      addInsts labels labelsRev comments sid pos l st = .ok st' →
      st'.instructions.length = st.instructions.length + l.length ∧
      (∀ j, j < st.instructions.length →
        st'.instructions[j]? = st.instructions[j]?) ∧
      (∀ i inst span, l[i]? = some (inst, span) →
        ∃ e, emitInst labels (pos + i) span inst = .ok e ∧
          st'.instructions[st.instructions.length + i]? = some e) := by
  intro l
  induction l with
  | nil =>
    intro pos st st' h
    simp only [addInsts] at h
    cases h
    refine ⟨rfl, fun j _ => rfl, fun i inst span hi => ?_⟩
    simp at hi
  | cons hd rest ih =>
    intro pos st st' h
    obtain ⟨inst, span⟩ := hd
    simp only [addInsts] at h
    cases he : emitInst labels pos span inst with
    | error e => rw [he] at h; cases h
    | ok e =>
      rw [he] at h
      set st1 : Inner :=
        Inner.pushDebugInst
          { st with instructions := st.instructions ++ [e] }
          ⟨sid, span, joinComments inst.autoComment (comments.lookup pos),
            labelsRev.lookup pos⟩ with hst1
      have hst1i : st1.instructions = st.instructions ++ [e] := rfl
      obtain ⟨hlen, hpre, hemit⟩ := ih (pos + 1) st1 st' h
      have hlen1 : st1.instructions.length = st.instructions.length + 1 := by
        rw [hst1i]; simp
      refine ⟨?_, ?_, ?_⟩
      · rw [hlen, hlen1]; simp; omega
      · intro j hj
        have hj1 : j < st1.instructions.length := by omega
        rw [hpre j hj1, hst1i, List.getElem?_append_left hj]
      · intro i inst' span' hi
        cases i with
        | zero =>
          simp only [List.getElem?_cons_zero] at hi
          cases hi
          refine ⟨e, by simpa using he, ?_⟩
          have hlt : st.instructions.length < st1.instructions.length := by omega
          rw [Nat.add_zero, hpre _ hlt, hst1i]
          simp [List.getElem?_concat_length st.instructions e]
        | succ i' =>
          simp only [List.getElem?_cons_succ] at hi
          obtain ⟨e', he', hget⟩ := hemit i' inst' span' hi
          refine ⟨e', ?_, ?_⟩
          · have : pos + 1 + i' = pos + (i' + 1) := by omega
            rw [← this]; exact he'
          · have : st1.instructions.length + i'
                = st.instructions.length + (i' + 1) := by omega
            rw [← this]; exact hget

/-- C1: for every assembly merged into the unit, every jump-form
instruction at assembly position p whose target label is defined at
position q is emitted as the corresponding raw jump with signed offset
q - (p + 1); consequently the unit index source_pos + 1 + offset equals the
unit index of the labelled position. -/
theorem add_assembly_jump_offsets (st0 : Inner) (sid : Nat) (a : Assembly)
    (st1 : Inner) (hok : addAssembly st0 sid a = .ok st1)
    (p : Nat) (inst : AssemblyInst) (span : Span) (l : Label) (q : Nat)
    (hi : a.instructions[p]? = some (inst, span))
    (hl : inst.jumpLabel = some l)
    (hq : a.labels.lookup l = some q) :
    st1.instructions[st0.instructions.length + p]?
      = inst.withOffset ((q : Int) - ((p : Int) + 1)) ∧
    ((st0.instructions.length + p : Int) + 1 + ((q : Int) - ((p : Int) + 1))
      = (st0.instructions.length + q : Int)) := by
  unfold addAssembly at hok
  obtain ⟨-, -, hemit⟩ :=
    addInsts_ok a.labels a.labelsRev a.comments sid a.instructions 0 _ st1 hok
  obtain ⟨e, he, hget⟩ := hemit p inst span hi
  simp only [Nat.zero_add] at he
  constructor
  · cases inst with
    | raw r => simp [AssemblyInst.jumpLabel] at hl
    | jump l' =>
      cases hl
      simp only [emitInst] at he
      cases ht : translateOffset span p l a.labels with
      | error er => rw [ht] at he; cases he
      | ok off =>
        rw [ht] at he
        obtain ⟨-, -, hoff⟩ := translateOffset_ok_inv hq ht
        cases he
        rw [hget, AssemblyInst.withOffset, hoff]
    | jumpIf l' =>
      cases hl
      simp only [emitInst] at he
      cases ht : translateOffset span p l a.labels with
      | error er => rw [ht] at he; cases he
      | ok off =>
        rw [ht] at he
        obtain ⟨-, -, hoff⟩ := translateOffset_ok_inv hq ht
        cases he
        rw [hget, AssemblyInst.withOffset, hoff]
    | jumpIfNot l' =>
      cases hl
      simp only [emitInst] at he
      cases ht : translateOffset span p l a.labels with
      | error er => rw [ht] at he; cases he
      | ok off =>
        rw [ht] at he
        obtain ⟨-, -, hoff⟩ := translateOffset_ok_inv hq ht
        cases he
        rw [hget, AssemblyInst.withOffset, hoff]
    | jumpIfOrPop l' =>
      cases hl
      simp only [emitInst] at he
      cases ht : translateOffset span p l a.labels with
      | error er => rw [ht] at he; cases he
      | ok off =>
        rw [ht] at he
        obtain ⟨-, -, hoff⟩ := translateOffset_ok_inv hq ht
        cases he
        rw [hget, AssemblyInst.withOffset, hoff]
    | jumpIfNotOrPop l' =>
      cases hl
      simp only [emitInst] at he
      cases ht : translateOffset span p l a.labels with
      | error er => rw [ht] at he; cases he
      | ok off =>
        rw [ht] at he
        obtain ⟨-, -, hoff⟩ := translateOffset_ok_inv hq ht
        cases he
        rw [hget, AssemblyInst.withOffset, hoff]
    | jumpIfBranch b l' =>
      cases hl
      simp only [emitInst] at he
      cases ht : translateOffset span p l a.labels with
      | error er => rw [ht] at he; cases he
      | ok off =>
        rw [ht] at he
        obtain ⟨-, -, hoff⟩ := translateOffset_ok_inv hq ht
        cases he
        rw [hget, AssemblyInst.withOffset, hoff]
    | popAndJumpIfNot c l' =>
      cases hl
      simp only [emitInst] at he
      cases ht : translateOffset span p l a.labels with
      | error er => rw [ht] at he; cases he
      | ok off =>
        rw [ht] at he
        obtain ⟨-, -, hoff⟩ := translateOffset_ok_inv hq ht
        cases he
        rw [hget, AssemblyInst.withOffset, hoff]
  · ring

/-- Witness for C1 on a concrete two-instruction assembly: the jump at
position 0 to the label at position 1 is emitted with offset 0, and the
round-trip index identity holds. -/
theorem add_assembly_jump_offsets_witness :
    (addAssembly emptyInner 0 demoAssembly
      = .ok (extractInner (addAssembly emptyInner 0 demoAssembly))) ∧
    (demoAssembly.instructions[0]? = some (.jump ("L", 0), (0, 1))) ∧
    ((AssemblyInst.jump ("L", 0)).jumpLabel = some ("L", 0)) ∧
    (demoAssembly.labels.lookup ("L", 0) = some 1) ∧
    ((extractInner
        (addAssembly emptyInner 0 demoAssembly)).instructions[
          emptyInner.instructions.length + 0]?
      = (AssemblyInst.jump ("L", 0)).withOffset ((1 : Int) - ((0 : Int) + 1)) ∧
    ((emptyInner.instructions.length + 0 : Int) + 1
        + ((1 : Int) - ((0 : Int) + 1))
      = (emptyInner.instructions.length + 1 : Int))) :=
  ⟨by rfl, by rfl, by rfl, by rfl,
   add_assembly_jump_offsets emptyInner 0 demoAssembly _ (by rfl)
     0 (.jump ("L", 0)) (0, 1) ("L", 0) 1 (by rfl) (by rfl) (by rfl)⟩


/-! ## Static pool lemmas -/

/-- The empty builder satisfies the string-pool invariant. -/
theorem strPoolInv_empty (hashStr : String → Hash) :
    StrPoolInv hashStr emptyInner := by
  intro i s h
  simp [emptyInner] at h

/-- One successful new_static_string call: the returned slot holds the
inserted content and is indexed by its hash; the invariant, all existing
pool entries and all existing reverse-map bindings are preserved; the pool
contents grow by exactly the inserted string. -/
theorem newStaticString_ok (hashStr : String → Hash) (span : Span)
    (s : String) (st : Inner) (k : Nat) (st' : Inner)
    (hinv : StrPoolInv hashStr st)
    (h : newStaticString hashStr span s st = (.ok k, st')) :
    st'.staticStrings[k]? = some s ∧
    st'.staticStringRev.lookup (hashStr s) = some k ∧
    StrPoolInv hashStr st' ∧
    (∀ (j : Nat) (t : String), st.staticStrings[j]? = some t →
      st'.staticStrings[j]? = some t) ∧
    (∀ hh m, st.staticStringRev.lookup hh = some m →
      st'.staticStringRev.lookup hh = some m) ∧
    (∀ t, t ∈ st'.staticStrings ↔ t ∈ st.staticStrings ∨ t = s) := by
  unfold newStaticString at h
  simp only [] at h
  split at h
  · rename_i slot hrev
    split at h
    · simp at h
    · rename_i e hpool
      split at h
      · simp at h
      · rename_i hne
        have he : e = s := not_not.mp hne
        subst he
        simp only [Prod.mk.injEq, Except.ok.injEq] at h
        obtain ⟨hk, hst⟩ := h
        subst hk
        subst hst
        have hmem : e ∈ st.staticStrings := by
          obtain ⟨hlt, hget⟩ := List.getElem?_eq_some.mp hpool
          exact hget ▸ List.getElem_mem hlt
        refine ⟨hpool, hrev, hinv, ?_, ?_, ?_⟩
        · exact fun j t ht => ht
        · exact fun hh m hm => hm
        · intro t
          constructor
          · exact fun ht => Or.inl ht
          · rintro (ht | rfl)
            · exact ht
            · exact hmem
  · rename_i hrev
    simp only [Prod.mk.injEq, Except.ok.injEq] at h
    obtain ⟨hk, hst⟩ := h
    subst hk
    subst hst
    refine ⟨?_, ?_, ?_, ?_, ?_, ?_⟩
    · simp [List.getElem?_concat_length]
    · exact AList.lookup_insertHM_self st.staticStringRev (hashStr s) _
    · intro i t hit
      simp only at hit
      by_cases hi : i < st.staticStrings.length
      · rw [List.getElem?_append_left hi] at hit
        have hrec := hinv i t hit
        have hne : hashStr t ≠ hashStr s := by
          intro heq
          rw [heq, hrev] at hrec
          cases hrec
        simp only
        rw [AList.lookup_insertHM_ne _ _ _ _ hne]
        exact hrec
      · have hi2 : i < (st.staticStrings ++ [s]).length :=
          (List.getElem?_eq_some.mp hit).1
        have hieq : i = st.staticStrings.length := by
          simp at hi2
          omega
        subst hieq
        have hlast : (st.staticStrings ++ [s])[st.staticStrings.length]?
            = some s := by
          simp [List.getElem?_concat_length]
        rw [hlast] at hit
        cases hit
        exact AList.lookup_insertHM_self st.staticStringRev (hashStr s) _
    · intro j t ht
      have hj : j < st.staticStrings.length :=
        (List.getElem?_eq_some.mp ht).1
      simp only
      rw [List.getElem?_append_left hj]
      exact ht
    · intro hh m hm
      have hne : hh ≠ hashStr s := by
        intro heq
        rw [heq, hrev] at hm
        cases hm
      simp only
      rw [AList.lookup_insertHM_ne _ _ _ _ hne]
      exact hm
    · intro t
      simp

/-- Reverse-map bindings persist through a successful run of
new_static_string calls. -/
theorem runStrings_revMono (hashStr : String → Hash) :
    ∀ (l : List String) (st : Inner) (slots : List Nat) (st' : Inner),
      StrPoolInv hashStr st →
      runStrings hashStr l st = .ok (slots, st') →
      (StrPoolInv hashStr st' ∧
       ∀ hh m, st.staticStringRev.lookup hh = some m →
         st'.staticStringRev.lookup hh = some m) := by
  intro l
  induction l with
  | nil =>
    intro st slots st' hinv h
    simp only [runStrings] at h
    cases h
    exact ⟨hinv, fun _ _ hm => hm⟩
  | cons s rest ih =>
    intro st slots st' hinv h
    simp only [runStrings] at h
    split at h
    · exact Except.noConfusion h
    · rename_i slot st1 hcall
      split at h
      · exact Except.noConfusion h
      · rename_i slots1 st1' hrun
        simp only [Except.ok.injEq, Prod.mk.injEq] at h
        obtain ⟨hs, hst⟩ := h
        subst hst
        obtain ⟨-, -, hinv1, -, hrevmono1, -⟩ :=
          newStaticString_ok hashStr (0, 0) s st slot st1 hinv hcall
        obtain ⟨hinv', hrevmono⟩ := ih st1 slots1 st1' hinv1 hrun
        exact ⟨hinv', fun hh m hm => hrevmono hh m (hrevmono1 hh m hm)⟩

/-- A successful run of new_static_string calls: one slot per call, every
call's slot holds its content and is indexed by its hash in the final
state, existing pool entries persist, and the final pool contents are the
initial ones plus the inserted strings. -/
theorem runStrings_ok (hashStr : String → Hash) :
    ∀ (l : List String) (st : Inner) (slots : List Nat) (st' : Inner),
      StrPoolInv hashStr st →
      runStrings hashStr l st = .ok (slots, st') →
      slots.length = l.length ∧
      (∀ (i : Nat) (s : String), l[i]? = some s → ∃ k, slots[i]? = some k ∧
        st'.staticStrings[k]? = some s ∧
        st'.staticStringRev.lookup (hashStr s) = some k) ∧
      (∀ (j : Nat) (t : String), st.staticStrings[j]? = some t →
        st'.staticStrings[j]? = some t) ∧
      (∀ t, t ∈ st'.staticStrings ↔ t ∈ st.staticStrings ∨ t ∈ l) := by
  intro l
  induction l with
  | nil =>
    intro st slots st' hinv h
    simp only [runStrings] at h
    cases h
    refine ⟨rfl, ?_, ?_, ?_⟩
    · intro i s hi
      simp at hi
    · exact fun j t ht => ht
    · intro t
      simp
  | cons s rest ih =>
    intro st slots st' hinv h
    simp only [runStrings] at h
    split at h
    · exact Except.noConfusion h
    · rename_i slot st1 hcall
      split at h
      · exact Except.noConfusion h
      · rename_i slots1 st1' hrun
        simp only [Except.ok.injEq, Prod.mk.injEq] at h
        obtain ⟨hs, hst⟩ := h
        subst hs
        subst hst
        obtain ⟨hk1, hrev1, hinv1, hpoolmono1, hrevmono1, hmem1⟩ :=
          newStaticString_ok hashStr (0, 0) s st slot st1 hinv hcall
        obtain ⟨hlen, hslots, hpoolmono, hmem⟩ :=
          ih st1 slots1 st1' hinv1 hrun
        obtain ⟨-, hrevrun⟩ :=
          runStrings_revMono hashStr rest st1 slots1 st1' hinv1 hrun
        refine ⟨by simp [hlen], ?_, ?_, ?_⟩
        · intro i t hi
          cases i with
          | zero =>
            simp only [List.getElem?_cons_zero] at hi
            cases hi
            exact ⟨slot, by simp, hpoolmono _ _ hk1, hrevrun _ _ hrev1⟩
          | succ i' =>
            simp only [List.getElem?_cons_succ] at hi
            obtain ⟨k, h1, h2, h3⟩ := hslots i' t hi
            exact ⟨k, by simpa using h1, h2, h3⟩
        · intro j t ht
          exact hpoolmono _ _ (hpoolmono1 _ _ ht)
        · intro t
          rw [hmem t, hmem1 t]
          simp only [List.mem_cons]
          tauto


/-- C4: for any successful sequence of new_static_string calls on one unit
builder starting empty, two calls with equal content return the same slot,
the final pool length equals the number of distinct contents inserted, and
every returned slot indexes an entry equal to the inserted content. -/
theorem new_static_string_idempotent (hashStr : String → Hash)
    (l : List String) (slots : List Nat) (st : Inner)
    (h : runStrings hashStr l emptyInner = .ok (slots, st)) :
    (∀ (i j : Nat) (s : String), l[i]? = some s → l[j]? = some s →
      slots[i]? = slots[j]?) ∧
    st.staticStrings.length = l.dedup.length ∧
    (∀ (i k : Nat) (s : String), l[i]? = some s → slots[i]? = some k →
      st.staticStrings[k]? = some s) := by
  obtain ⟨hlen, hslots, hmono, hmem⟩ :=
    runStrings_ok hashStr l emptyInner slots st (strPoolInv_empty hashStr) h
  obtain ⟨hinv, -⟩ :=
    runStrings_revMono hashStr l emptyInner slots st (strPoolInv_empty hashStr) h
  refine ⟨?_, ?_, ?_⟩
  · intro i j s hi hj
    obtain ⟨ki, hki, hpi, hri⟩ := hslots i s hi
    obtain ⟨kj, hkj, hpj, hrj⟩ := hslots j s hj
    have hk : ki = kj := Option.some.inj (hri.symm.trans hrj)
    rw [hki, hkj, hk]
  · have hnd : st.staticStrings.Nodup := by
      rw [List.nodup_iff_injective_get]
      intro a b hab
      have ha : st.staticStrings[a.1]? = some (st.staticStrings.get a) := by
        rw [List.get_eq_getElem]
        exact List.getElem?_eq_getElem a.2
      have hb : st.staticStrings[b.1]? = some (st.staticStrings.get b) := by
        rw [List.get_eq_getElem]
        exact List.getElem?_eq_getElem b.2
      have h1 := hinv a.1 _ ha
      have h2 := hinv b.1 _ hb
      rw [hab] at h1
      exact Fin.ext (Option.some.inj (h1.symm.trans h2))
    have hfin : st.staticStrings.toFinset = l.toFinset := by
      ext t
      simp only [List.mem_toFinset]
      rw [hmem t]
      simp [emptyInner]
    calc st.staticStrings.length
        = st.staticStrings.toFinset.card :=
          (List.toFinset_card_of_nodup hnd).symm
      _ = l.toFinset.card := by rw [hfin]
      _ = l.dedup.length := List.card_toFinset l
  · intro i k s hi hk
    obtain ⟨k', hk', hp, -⟩ := hslots i s hi
    rw [hk] at hk'
    obtain rfl : k = k' := Option.some.inj hk'
    exact hp

/-- Witness for C4: inserting "a", "bb", "a" with a length-valued hash
returns slots 0, 1, 0 and leaves a pool of two distinct entries. -/
theorem new_static_string_idempotent_witness :
    (runStrings String.length ["a", "bb", "a"] emptyInner
      = .ok (extractRun (runStrings String.length ["a", "bb", "a"] emptyInner))) ∧
    ((extractRun
        (runStrings String.length ["a", "bb", "a"] emptyInner)).2.staticStrings.length
      = (["a", "bb", "a"] : List String).dedup.length) :=
  ⟨by rfl,
   (new_static_string_idempotent String.length ["a", "bb", "a"] _ _ (by rfl)).2.1⟩

/-- C5: each static-pool insertion whose content hash already maps to a
slot holding a different payload fails with the matching hash-conflict
error carrying both the incoming and the existing payload, and returns the
builder state unchanged. -/
theorem static_pool_hash_conflict (hashStr : String → Hash)
    (hashBytes : List Nat → Hash) (hashKeys : List String → Hash)
    (span : Span) (st : Inner) :
    (∀ (s e : String) (k : Nat),
      st.staticStringRev.lookup (hashStr s) = some k →
      st.staticStrings[k]? = some e → e ≠ s →
      newStaticString hashStr span s st
        = (.error ⟨span, .staticStringHashConflict (hashStr s) s e⟩, st)) ∧
    (∀ (b e : List Nat) (k : Nat),
      st.staticBytesRev.lookup (hashBytes b) = some k →
      st.staticBytes[k]? = some e → e ≠ b →
      newStaticBytes hashBytes span b st
        = (.error ⟨span, .staticBytesHashConflict (hashBytes b) b e⟩, st)) ∧
    (∀ (ks e : List String) (k : Nat),
      st.staticObjectKeysRev.lookup (hashKeys ks) = some k →
      st.staticObjectKeys[k]? = some e → e ≠ ks →
      newStaticObjectKeys hashKeys span ks st
        = (.error ⟨span, .staticObjectKeysHashConflict (hashKeys ks) ks e⟩, st)) := by
  refine ⟨?_, ?_, ?_⟩
  · intro s e k hrev hpool hne
    unfold newStaticString
    simp only [hrev]
    simp only [hpool]
    rw [if_pos hne]
  · intro b e k hrev hpool hne
    unfold newStaticBytes
    simp only [hrev]
    simp only [hpool]
    rw [if_pos hne]
  · intro ks e k hrev hpool hne
    unfold newStaticObjectKeys
    simp only [hrev]
    simp only [hpool]
    rw [if_pos hne]

/-- Witness for C5: with a length-valued hash, inserting "cd" into a pool
holding "ab" at the colliding slot fails with the string hash-conflict
error carrying both payloads and leaves the state unchanged. -/
theorem static_pool_hash_conflict_witness :
    (conflictDemoState.staticStringRev.lookup (String.length "cd") = some 0) ∧
    (conflictDemoState.staticStrings[0]? = some "ab") ∧
    ("ab" ≠ "cd") ∧
    newStaticString String.length (0, 0) "cd" conflictDemoState
      = (.error ⟨(0, 0), .staticStringHashConflict 2 "cd" "ab"⟩,
         conflictDemoState) :=
  ⟨by rfl, by rfl, by decide,
   (static_pool_hash_conflict String.length List.length List.length (0, 0)
      conflictDemoState).1 "cd" "ab" 0 (by rfl) (by rfl) (by decide)⟩


/-- C3 counterexample: two insert_meta calls registering UnitStruct metas
under the same hash 5: the second call fails, but with TypeRttiConflict
rather than the FunctionConflict the claim states (the rtti insertion is
checked before the functions table is reached). -/
theorem insert_meta_counterexample :
    ((insertMeta (fun _ => 0)
        ⟨.unitStruct 5 [Component.str "B"]⟩
        (insertMeta (fun _ => 0) ⟨.unitStruct 5 [Component.str "A"]⟩
          emptyInner).2).1
      = .error (.typeRttiConflict 5)) ∧
    (isFunctionConflict
      (insertMeta (fun _ => 0)
        ⟨.unitStruct 5 [Component.str "B"]⟩
        (insertMeta (fun _ => 0) ⟨.unitStruct 5 [Component.str "A"]⟩
          emptyInner).2).1 = false) := by
  constructor <;> rfl

/-- C3 (amended): for every ordered pair of insert_meta calls registering
function-bearing meta kinds under the same hash (starting from the empty
builder), the first call succeeds and the second returns a conflict error:
when both kinds are struct-constructor kinds the error is TypeRttiConflict
and when both are variant-constructor kinds it is VariantRttiConflict,
raised before the functions table is consulted, so the entry stored by the
first call remains intact; when one kind is a struct constructor and the
other a variant constructor, the error is FunctionConflict carrying the
second call's own signature, and the functions table is left mapping the
hash to the second call's UnitFn. -/
theorem insert_meta_conflict (typeHash : Item → Hash) (m1 m2 : CompileMeta)
    (h : Hash) (h1 : m1.kind.fnHash = some h) (h2 : m2.kind.fnHash = some h) :
    (insertMeta typeHash m1 emptyInner).1 = .ok () ∧
    (m1.kind.isStructKind = m2.kind.isStructKind →
      (insertMeta typeHash m2 (insertMeta typeHash m1 emptyInner).2).1
        = .error (if m2.kind.isStructKind then InsertMetaError.typeRttiConflict h
            else InsertMetaError.variantRttiConflict h) ∧
      (insertMeta typeHash m2
        (insertMeta typeHash m1 emptyInner).2).2.functions.lookup h
        = m1.kind.fnValue) ∧
    (m1.kind.isStructKind ≠ m2.kind.isStructKind →
      (insertMeta typeHash m2 (insertMeta typeHash m1 emptyInner).2).1
        = .error (.functionConflict
            ((m2.kind.fnSignature).getD ⟨[], .emptyArgs⟩)) ∧
      (insertMeta typeHash m2
        (insertMeta typeHash m1 emptyInner).2).2.functions.lookup h
        = m2.kind.fnValue) := by
  obtain ⟨k1⟩ := m1
  obtain ⟨k2⟩ := m2
  cases k1 with
  | unitStruct hh1 i1 =>
    simp only [CompileMetaKind.fnHash, Option.some.injEq] at h1
    subst h1
    cases k2 with
    | unitStruct hh2 i2 =>
      simp only [CompileMetaKind.fnHash, Option.some.injEq] at h2
      subst h2
      refine ⟨?_, fun hsame => ?_, fun hdiff => absurd rfl hdiff⟩
      · simp [insertMeta, finishMeta, AList.insertHM, AList.lookup, Inner.insertDebugFunction, emptyInner, DebugInfo.empty]
      · constructor
        · simp [insertMeta, finishMeta, AList.insertHM, AList.lookup, Inner.insertDebugFunction, emptyInner, DebugInfo.empty, CompileMetaKind.isStructKind]
        · simp [insertMeta, finishMeta, AList.insertHM, AList.lookup, Inner.insertDebugFunction, emptyInner, DebugInfo.empty, CompileMetaKind.fnValue]
    | tupleStruct hh2 i2 a2 =>
      simp only [CompileMetaKind.fnHash, Option.some.injEq] at h2
      subst h2
      refine ⟨?_, fun hsame => ?_, fun hdiff => absurd rfl hdiff⟩
      · simp [insertMeta, finishMeta, AList.insertHM, AList.lookup, Inner.insertDebugFunction, emptyInner, DebugInfo.empty]
      · constructor
        · simp [insertMeta, finishMeta, AList.insertHM, AList.lookup, Inner.insertDebugFunction, emptyInner, DebugInfo.empty, CompileMetaKind.isStructKind]
        · simp [insertMeta, finishMeta, AList.insertHM, AList.lookup, Inner.insertDebugFunction, emptyInner, DebugInfo.empty, CompileMetaKind.fnValue]
    | unitVariant e2 hh2 i2 =>
      simp only [CompileMetaKind.fnHash, Option.some.injEq] at h2
      subst h2
      refine ⟨?_, fun hsame => absurd hsame (by simp [CompileMetaKind.isStructKind]), fun hdiff => ?_⟩
      · simp [insertMeta, finishMeta, AList.insertHM, AList.lookup, Inner.insertDebugFunction, emptyInner, DebugInfo.empty]
      · constructor
        · simp [insertMeta, finishMeta, AList.insertHM, AList.lookup, Inner.insertDebugFunction, emptyInner, DebugInfo.empty, CompileMetaKind.fnSignature]
        · simp [insertMeta, finishMeta, AList.insertHM, AList.lookup, Inner.insertDebugFunction, emptyInner, DebugInfo.empty, CompileMetaKind.fnValue]
    | tupleVariant e2 hh2 i2 a2 =>
      simp only [CompileMetaKind.fnHash, Option.some.injEq] at h2
      subst h2
      refine ⟨?_, fun hsame => absurd hsame (by simp [CompileMetaKind.isStructKind]), fun hdiff => ?_⟩
      · simp [insertMeta, finishMeta, AList.insertHM, AList.lookup, Inner.insertDebugFunction, emptyInner, DebugInfo.empty]
      · constructor
        · simp [insertMeta, finishMeta, AList.insertHM, AList.lookup, Inner.insertDebugFunction, emptyInner, DebugInfo.empty, CompileMetaKind.fnSignature]
        · simp [insertMeta, finishMeta, AList.insertHM, AList.lookup, Inner.insertDebugFunction, emptyInner, DebugInfo.empty, CompileMetaKind.fnValue]
    | struct_ i2 => exact Option.noConfusion h2
    | structVariant e2 i2 => exact Option.noConfusion h2
    | enum_ i2 => exact Option.noConfusion h2
    | function i2 => exact Option.noConfusion h2
    | closure i2 => exact Option.noConfusion h2
    | asyncBlock i2 => exact Option.noConfusion h2
    | macroItem i2 => exact Option.noConfusion h2
    | constItem i2 => exact Option.noConfusion h2
    | constFn i2 => exact Option.noConfusion h2
  | tupleStruct hh1 i1 a1 =>
    simp only [CompileMetaKind.fnHash, Option.some.injEq] at h1
    subst h1
    cases k2 with
    | unitStruct hh2 i2 =>
      simp only [CompileMetaKind.fnHash, Option.some.injEq] at h2
      subst h2
      refine ⟨?_, fun hsame => ?_, fun hdiff => absurd rfl hdiff⟩
      · simp [insertMeta, finishMeta, AList.insertHM, AList.lookup, Inner.insertDebugFunction, emptyInner, DebugInfo.empty]
      · constructor
        · simp [insertMeta, finishMeta, AList.insertHM, AList.lookup, Inner.insertDebugFunction, emptyInner, DebugInfo.empty, CompileMetaKind.isStructKind]
        · simp [insertMeta, finishMeta, AList.insertHM, AList.lookup, Inner.insertDebugFunction, emptyInner, DebugInfo.empty, CompileMetaKind.fnValue]
    | tupleStruct hh2 i2 a2 =>
      simp only [CompileMetaKind.fnHash, Option.some.injEq] at h2
      subst h2
      refine ⟨?_, fun hsame => ?_, fun hdiff => absurd rfl hdiff⟩
      · simp [insertMeta, finishMeta, AList.insertHM, AList.lookup, Inner.insertDebugFunction, emptyInner, DebugInfo.empty]
      · constructor
        · simp [insertMeta, finishMeta, AList.insertHM, AList.lookup, Inner.insertDebugFunction, emptyInner, DebugInfo.empty, CompileMetaKind.isStructKind]
        · simp [insertMeta, finishMeta, AList.insertHM, AList.lookup, Inner.insertDebugFunction, emptyInner, DebugInfo.empty, CompileMetaKind.fnValue]
    | unitVariant e2 hh2 i2 =>
      simp only [CompileMetaKind.fnHash, Option.some.injEq] at h2
      subst h2
      refine ⟨?_, fun hsame => absurd hsame (by simp [CompileMetaKind.isStructKind]), fun hdiff => ?_⟩
      · simp [insertMeta, finishMeta, AList.insertHM, AList.lookup, Inner.insertDebugFunction, emptyInner, DebugInfo.empty]
      · constructor
        · simp [insertMeta, finishMeta, AList.insertHM, AList.lookup, Inner.insertDebugFunction, emptyInner, DebugInfo.empty, CompileMetaKind.fnSignature]
        · simp [insertMeta, finishMeta, AList.insertHM, AList.lookup, Inner.insertDebugFunction, emptyInner, DebugInfo.empty, CompileMetaKind.fnValue]
    | tupleVariant e2 hh2 i2 a2 =>
      simp only [CompileMetaKind.fnHash, Option.some.injEq] at h2
      subst h2
      refine ⟨?_, fun hsame => absurd hsame (by simp [CompileMetaKind.isStructKind]), fun hdiff => ?_⟩
      · simp [insertMeta, finishMeta, AList.insertHM, AList.lookup, Inner.insertDebugFunction, emptyInner, DebugInfo.empty]
      · constructor
        · simp [insertMeta, finishMeta, AList.insertHM, AList.lookup, Inner.insertDebugFunction, emptyInner, DebugInfo.empty, CompileMetaKind.fnSignature]
        · simp [insertMeta, finishMeta, AList.insertHM, AList.lookup, Inner.insertDebugFunction, emptyInner, DebugInfo.empty, CompileMetaKind.fnValue]
    | struct_ i2 => exact Option.noConfusion h2
    | structVariant e2 i2 => exact Option.noConfusion h2
    | enum_ i2 => exact Option.noConfusion h2
    | function i2 => exact Option.noConfusion h2
    | closure i2 => exact Option.noConfusion h2
    | asyncBlock i2 => exact Option.noConfusion h2
    | macroItem i2 => exact Option.noConfusion h2
    | constItem i2 => exact Option.noConfusion h2
    | constFn i2 => exact Option.noConfusion h2
  | unitVariant e1 hh1 i1 =>
    simp only [CompileMetaKind.fnHash, Option.some.injEq] at h1
    subst h1
    cases k2 with
    | unitStruct hh2 i2 =>
      simp only [CompileMetaKind.fnHash, Option.some.injEq] at h2
      subst h2
      refine ⟨?_, fun hsame => absurd hsame (by simp [CompileMetaKind.isStructKind]), fun hdiff => ?_⟩
      · simp [insertMeta, finishMeta, AList.insertHM, AList.lookup, Inner.insertDebugFunction, emptyInner, DebugInfo.empty]
      · constructor
        · simp [insertMeta, finishMeta, AList.insertHM, AList.lookup, Inner.insertDebugFunction, emptyInner, DebugInfo.empty, CompileMetaKind.fnSignature]
        · simp [insertMeta, finishMeta, AList.insertHM, AList.lookup, Inner.insertDebugFunction, emptyInner, DebugInfo.empty, CompileMetaKind.fnValue]
    | tupleStruct hh2 i2 a2 =>
      simp only [CompileMetaKind.fnHash, Option.some.injEq] at h2
      subst h2
      refine ⟨?_, fun hsame => absurd hsame (by simp [CompileMetaKind.isStructKind]), fun hdiff => ?_⟩
      · simp [insertMeta, finishMeta, AList.insertHM, AList.lookup, Inner.insertDebugFunction, emptyInner, DebugInfo.empty]
      · constructor
        · simp [insertMeta, finishMeta, AList.insertHM, AList.lookup, Inner.insertDebugFunction, emptyInner, DebugInfo.empty, CompileMetaKind.fnSignature]
        · simp [insertMeta, finishMeta, AList.insertHM, AList.lookup, Inner.insertDebugFunction, emptyInner, DebugInfo.empty, CompileMetaKind.fnValue]
    | unitVariant e2 hh2 i2 =>
      simp only [CompileMetaKind.fnHash, Option.some.injEq] at h2
      subst h2
      refine ⟨?_, fun hsame => ?_, fun hdiff => absurd rfl hdiff⟩
      · simp [insertMeta, finishMeta, AList.insertHM, AList.lookup, Inner.insertDebugFunction, emptyInner, DebugInfo.empty]
      · constructor
        · simp [insertMeta, finishMeta, AList.insertHM, AList.lookup, Inner.insertDebugFunction, emptyInner, DebugInfo.empty, CompileMetaKind.isStructKind]
        · simp [insertMeta, finishMeta, AList.insertHM, AList.lookup, Inner.insertDebugFunction, emptyInner, DebugInfo.empty, CompileMetaKind.fnValue]
    | tupleVariant e2 hh2 i2 a2 =>
      simp only [CompileMetaKind.fnHash, Option.some.injEq] at h2
      subst h2
      refine ⟨?_, fun hsame => ?_, fun hdiff => absurd rfl hdiff⟩
      · simp [insertMeta, finishMeta, AList.insertHM, AList.lookup, Inner.insertDebugFunction, emptyInner, DebugInfo.empty]
      · constructor
        · simp [insertMeta, finishMeta, AList.insertHM, AList.lookup, Inner.insertDebugFunction, emptyInner, DebugInfo.empty, CompileMetaKind.isStructKind]
        · simp [insertMeta, finishMeta, AList.insertHM, AList.lookup, Inner.insertDebugFunction, emptyInner, DebugInfo.empty, CompileMetaKind.fnValue]
    | struct_ i2 => exact Option.noConfusion h2
    | structVariant e2 i2 => exact Option.noConfusion h2
    | enum_ i2 => exact Option.noConfusion h2
    | function i2 => exact Option.noConfusion h2
    | closure i2 => exact Option.noConfusion h2
    | asyncBlock i2 => exact Option.noConfusion h2
    | macroItem i2 => exact Option.noConfusion h2
    | constItem i2 => exact Option.noConfusion h2
    | constFn i2 => exact Option.noConfusion h2
  | tupleVariant e1 hh1 i1 a1 =>
    simp only [CompileMetaKind.fnHash, Option.some.injEq] at h1
    subst h1
    cases k2 with
    | unitStruct hh2 i2 =>
      simp only [CompileMetaKind.fnHash, Option.some.injEq] at h2
      subst h2
      refine ⟨?_, fun hsame => absurd hsame (by simp [CompileMetaKind.isStructKind]), fun hdiff => ?_⟩
      · simp [insertMeta, finishMeta, AList.insertHM, AList.lookup, Inner.insertDebugFunction, emptyInner, DebugInfo.empty]
      · constructor
        · simp [insertMeta, finishMeta, AList.insertHM, AList.lookup, Inner.insertDebugFunction, emptyInner, DebugInfo.empty, CompileMetaKind.fnSignature]
        · simp [insertMeta, finishMeta, AList.insertHM, AList.lookup, Inner.insertDebugFunction, emptyInner, DebugInfo.empty, CompileMetaKind.fnValue]
    | tupleStruct hh2 i2 a2 =>
      simp only [CompileMetaKind.fnHash, Option.some.injEq] at h2
      subst h2
      refine ⟨?_, fun hsame => absurd hsame (by simp [CompileMetaKind.isStructKind]), fun hdiff => ?_⟩
      · simp [insertMeta, finishMeta, AList.insertHM, AList.lookup, Inner.insertDebugFunction, emptyInner, DebugInfo.empty]
      · constructor
        · simp [insertMeta, finishMeta, AList.insertHM, AList.lookup, Inner.insertDebugFunction, emptyInner, DebugInfo.empty, CompileMetaKind.fnSignature]
        · simp [insertMeta, finishMeta, AList.insertHM, AList.lookup, Inner.insertDebugFunction, emptyInner, DebugInfo.empty, CompileMetaKind.fnValue]
    | unitVariant e2 hh2 i2 =>
      simp only [CompileMetaKind.fnHash, Option.some.injEq] at h2
      subst h2
      refine ⟨?_, fun hsame => ?_, fun hdiff => absurd rfl hdiff⟩
      · simp [insertMeta, finishMeta, AList.insertHM, AList.lookup, Inner.insertDebugFunction, emptyInner, DebugInfo.empty]
      · constructor
        · simp [insertMeta, finishMeta, AList.insertHM, AList.lookup, Inner.insertDebugFunction, emptyInner, DebugInfo.empty, CompileMetaKind.isStructKind]
        · simp [insertMeta, finishMeta, AList.insertHM, AList.lookup, Inner.insertDebugFunction, emptyInner, DebugInfo.empty, CompileMetaKind.fnValue]
    | tupleVariant e2 hh2 i2 a2 =>
      simp only [CompileMetaKind.fnHash, Option.some.injEq] at h2
      subst h2
      refine ⟨?_, fun hsame => ?_, fun hdiff => absurd rfl hdiff⟩
      · simp [insertMeta, finishMeta, AList.insertHM, AList.lookup, Inner.insertDebugFunction, emptyInner, DebugInfo.empty]
      · constructor
        · simp [insertMeta, finishMeta, AList.insertHM, AList.lookup, Inner.insertDebugFunction, emptyInner, DebugInfo.empty, CompileMetaKind.isStructKind]
        · simp [insertMeta, finishMeta, AList.insertHM, AList.lookup, Inner.insertDebugFunction, emptyInner, DebugInfo.empty, CompileMetaKind.fnValue]
    | struct_ i2 => exact Option.noConfusion h2
    | structVariant e2 i2 => exact Option.noConfusion h2
    | enum_ i2 => exact Option.noConfusion h2
    | function i2 => exact Option.noConfusion h2
    | closure i2 => exact Option.noConfusion h2
    | asyncBlock i2 => exact Option.noConfusion h2
    | macroItem i2 => exact Option.noConfusion h2
    | constItem i2 => exact Option.noConfusion h2
    | constFn i2 => exact Option.noConfusion h2
  | struct_ i1 => exact Option.noConfusion h1
  | structVariant e1 i1 => exact Option.noConfusion h1
  | enum_ i1 => exact Option.noConfusion h1
  | function i1 => exact Option.noConfusion h1
  | closure i1 => exact Option.noConfusion h1
  | asyncBlock i1 => exact Option.noConfusion h1
  | macroItem i1 => exact Option.noConfusion h1
  | constItem i1 => exact Option.noConfusion h1
  | constFn i1 => exact Option.noConfusion h1

/-- Witness for the amended C3 theorem: a UnitVariant followed by a
UnitStruct under hash 5 triggers the cross-kind FunctionConflict branch
with the second call's signature, and the functions table afterwards holds
the second call's UnitFn. -/
theorem insert_meta_conflict_witness :
    ((CompileMetaKind.unitVariant [] 5 [Component.str "A"]).fnHash = some 5) ∧
    ((CompileMetaKind.unitStruct 5 [Component.str "B"]).fnHash = some 5) ∧
    ((CompileMetaKind.unitVariant [] 5 [Component.str "A"]).isStructKind
      ≠ (CompileMetaKind.unitStruct 5 [Component.str "B"]).isStructKind) ∧
    ((insertMeta (fun _ => 0) ⟨.unitStruct 5 [Component.str "B"]⟩
        (insertMeta (fun _ => 0) ⟨.unitVariant [] 5 [Component.str "A"]⟩
          emptyInner).2).1
      = .error (.functionConflict ⟨[Component.str "B"], .emptyArgs⟩)) ∧
    ((insertMeta (fun _ => 0) ⟨.unitStruct 5 [Component.str "B"]⟩
        (insertMeta (fun _ => 0) ⟨.unitVariant [] 5 [Component.str "A"]⟩
          emptyInner).2).2.functions.lookup 5
      = some (.unitStruct 5)) := by
  refine ⟨rfl, rfl, by decide, ?_, ?_⟩
  · exact ((insert_meta_conflict (fun _ => 0)
      ⟨.unitVariant [] 5 [Component.str "A"]⟩
      ⟨.unitStruct 5 [Component.str "B"]⟩ 5 rfl rfl).2.2 (by decide)).1
  · exact ((insert_meta_conflict (fun _ => 0)
      ⟨.unitVariant [] 5 [Component.str "A"]⟩
      ⟨.unitStruct 5 [Component.str "B"]⟩ 5 rfl rfl).2.2 (by decide)).2


/-- C6: the cache freshness check returns true iff both stats succeed and
the source's modification time is strictly earlier than the cache's; an
absent cache file yields false without error; every other stat or
modified-time error (on either file) is propagated. -/
theorem should_cache_be_used_spec (stat : FsPath → Except IoError Metadata)
    (source cached : FsPath) :
    (shouldCacheBeUsed stat source cached = .ok true ↔
      ∃ (sm cm : Metadata) (t1 t2 : Int), stat source = .ok sm ∧
        stat cached = .ok cm ∧ sm.modified = .ok t1 ∧
        cm.modified = .ok t2 ∧ t1 < t2) ∧
    (∀ (sm : Metadata) (e : IoError), stat source = .ok sm →
      stat cached = .error e → e.kind = .notFound →
      shouldCacheBeUsed stat source cached = .ok false) ∧
    (∀ (e : IoError), stat source = .error e →
      shouldCacheBeUsed stat source cached = .error e) ∧
    (∀ (sm : Metadata) (e : IoError), stat source = .ok sm →
      stat cached = .error e → e.kind ≠ .notFound →
      shouldCacheBeUsed stat source cached = .error e) ∧
    (∀ (sm cm : Metadata) (e : IoError), stat source = .ok sm →
      stat cached = .ok cm → sm.modified = .error e →
      shouldCacheBeUsed stat source cached = .error e) ∧
    (∀ (sm cm : Metadata) (t1 : Int) (e : IoError), stat source = .ok sm →
      stat cached = .ok cm → sm.modified = .ok t1 → cm.modified = .error e →
      shouldCacheBeUsed stat source cached = .error e) := by
  refine ⟨?_, ?_, ?_, ?_, ?_, ?_⟩
  · constructor
    · intro hres
      cases hs : stat source with
      | error e => simp [shouldCacheBeUsed, hs] at hres
      | ok sm =>
        cases hc : stat cached with
        | error e =>
          by_cases hk : e.kind = .notFound
          · simp [shouldCacheBeUsed, hs, hc, hk] at hres
          · simp [shouldCacheBeUsed, hs, hc, hk] at hres
        | ok cm =>
          cases hm1 : sm.modified with
          | error e => simp [shouldCacheBeUsed, hs, hc, hm1] at hres
          | ok t1 =>
            cases hm2 : cm.modified with
            | error e => simp [shouldCacheBeUsed, hs, hc, hm1, hm2] at hres
            | ok t2 =>
              simp [shouldCacheBeUsed, hs, hc, hm1, hm2] at hres
              exact ⟨sm, cm, t1, t2, rfl, rfl, hm1, hm2, hres⟩
    · rintro ⟨sm, cm, t1, t2, hs, hc, hm1, hm2, hlt⟩
      simp [shouldCacheBeUsed, hs, hc, hm1, hm2, hlt]
  · intro sm e hs hc hk
    simp [shouldCacheBeUsed, hs, hc, hk]
  · intro e hs
    simp [shouldCacheBeUsed, hs]
  · intro sm e hs hc hk
    simp [shouldCacheBeUsed, hs, hc, hk]
  · intro sm cm e hs hc hm1
    simp [shouldCacheBeUsed, hs, hc, hm1]
  · intro sm cm t1 e hs hc hm1 hm2
    simp [shouldCacheBeUsed, hs, hc, hm1, hm2]

/-- Witness for C6: with a present source (mtime 1) and an absent cache
file, the check returns false without error. -/
theorem should_cache_be_used_witness :
    ((fun p => if p = "src" then Except.ok (⟨Except.ok 1⟩ : Metadata)
       else Except.error (⟨IoErrorKind.notFound⟩ : IoError)) "src"
      = .ok (⟨Except.ok 1⟩ : Metadata)) ∧
    ((fun p => if p = "src" then Except.ok (⟨Except.ok 1⟩ : Metadata)
       else Except.error (⟨IoErrorKind.notFound⟩ : IoError)) "src.rnc"
      = .error ⟨IoErrorKind.notFound⟩) ∧
    shouldCacheBeUsed
      (fun p => if p = "src" then Except.ok (⟨Except.ok 1⟩ : Metadata)
        else Except.error (⟨IoErrorKind.notFound⟩ : IoError))
      "src" "src.rnc" = .ok false :=
  ⟨by rfl, by rfl,
   (should_cache_be_used_spec
      (fun p => if p = "src" then Except.ok (⟨Except.ok 1⟩ : Metadata)
        else Except.error (⟨IoErrorKind.notFound⟩ : IoError))
      "src" "src.rnc").2.1 ⟨Except.ok 1⟩ ⟨IoErrorKind.notFound⟩
     (by rfl) (by rfl) rfl⟩

/-- The import lookup loop computes the first match over all prefixes of
the base item, from the base itself down to the empty item. -/
theorem lookup_import_walks_prefixes (imports : AList ImportKey ImportEntry)
    (localName : String) :
    ∀ (base : Item),
      lookupImportByName imports base localName
        = (prefixList base).findSome? fun p =>
            (imports.lookup ⟨p, .str localName⟩).map ImportEntry.item := by
  have hstep : ∀ (n : Nat) (base : Item), base.length ≤ n →
      lookupImportByName imports base localName
        = (prefixList base).findSome? fun p =>
            (imports.lookup ⟨p, .str localName⟩).map ImportEntry.item := by
    intro n
    induction n with
    | zero =>
      intro base hlen
      have hnil : base = [] := List.eq_nil_of_length_eq_zero (Nat.le_zero.mp hlen)
      subst hnil
      rw [lookupImportByName, prefixList]
      cases hl : imports.lookup ⟨[], .str localName⟩ with
      | some e => simp [List.findSome?, hl]
      | none => simp [List.findSome?, hl]
    | succ n ihn =>
      intro base hlen
      cases base with
      | nil =>
        rw [lookupImportByName, prefixList]
        cases hl : imports.lookup ⟨[], .str localName⟩ with
        | some e => simp [List.findSome?, hl]
        | none => simp [List.findSome?, hl]
      | cons x xs =>
        rw [lookupImportByName, prefixList]
        cases hl : imports.lookup ⟨x :: xs, .str localName⟩ with
        | some e => simp [List.findSome?_cons, hl]
        | none =>
          simp only [List.findSome?_cons, hl, Option.map_none]
          exact ihn ((x :: xs).dropLast)
            (by simp [List.length_dropLast] at *; omega)
  exact fun base => hstep base.length base le_rfl

/-- C7: path resolution of a leading identifier walks the import table over
every prefix of the base item (from the base itself down to the empty
item), takes the first matching entry's item, falls back to the
single-component item of the name, and appends the remaining segments. -/
theorem convert_path_resolution (imports : AList ImportKey ImportEntry)
    (base : Item) (first : String) (rest : List String) :
    convertPath imports base first rest
      = (((prefixList base).findSome? fun p =>
            (imports.lookup ⟨p, .str first⟩).map ImportEntry.item).getD
          (Item.ofStrings [first])) ++ rest.map Component.str ∧
    lookupImportByName imports base first
      = (prefixList base).findSome? fun p =>
          (imports.lookup ⟨p, .str first⟩).map ImportEntry.item := by
  have hmain := lookup_import_walks_prefixes imports first base
  refine ⟨?_, hmain⟩
  cases hx : (prefixList base).findSome? fun p =>
      (imports.lookup ⟨p, .str first⟩).map ImportEntry.item with
  | some it => simp [convertPath, hmain, hx]
  | none => simp [convertPath, hmain, hx]


/-- C8: resolving a non-fractional number literal parses its digits (after
stripping the leading sign and the base prefix) in arbitrary precision,
applies negation before narrowing, and returns the integer exactly when
the signed value fits in 64 signed bits, otherwise the out-of-bounds
error. -/
theorem lit_number_resolve_narrowing (isNeg : Bool) (base : NumberBase)
    (text : List Char) (n : Nat)
    (hp : parseRadix base.radix
        ((if isNeg then text.drop 1 else text).drop base.prefixLen)
      = some n) :
    (-(2 ^ 63) ≤ (if isNeg then -(n : Int) else (n : Int)) ∧
        (if isNeg then -(n : Int) else (n : Int)) < 2 ^ 63 →
      litNumberResolveInt isNeg base text
        = .ok (if isNeg then -(n : Int) else (n : Int))) ∧
    ((if isNeg then -(n : Int) else (n : Int)) < -(2 ^ 63) ∨
        2 ^ 63 ≤ (if isNeg then -(n : Int) else (n : Int)) →
      litNumberResolveInt isNeg base text = .error .badNumberOutOfBounds) := by
  cases isNeg with
  | false =>
    simp only [Bool.false_eq_true, if_false]
    simp only [Bool.false_eq_true, if_false] at hp
    constructor
    · rintro ⟨hlo, hhi⟩
      have hc : ¬(9223372036854775807 < n) := by omega
      simp [litNumberResolveInt, hp, hc]
    · intro hbad
      have hc : 9223372036854775807 < n := by
        rcases hbad with hb | hb <;> omega
      simp [litNumberResolveInt, hp, hc]
  | true =>
    simp only [if_true]
    simp only [if_true] at hp
    rw [List.drop_drop, Nat.add_comm 1 base.prefixLen] at hp
    constructor
    · rintro ⟨hlo, hhi⟩
      have hc : ¬(9223372036854775808 < n) := by omega
      simp [litNumberResolveInt, hp, hc]
    · intro hbad
      have hc : 9223372036854775808 < n := by
        rcases hbad with hb | hb <;> omega
      simp [litNumberResolveInt, hp, hc]

/-- Witness for C8: the literal -9223372036854775808 (that is, -2^63)
resolves to i64::MIN rather than erroring. -/
theorem lit_number_resolve_narrowing_witness :
    (parseRadix NumberBase.decimal.radix
        ((if true then
            (['-', '9', '2', '2', '3', '3', '7', '2', '0', '3', '6', '8',
              '5', '4', '7', '7', '5', '8', '0', '8'] : List Char).drop 1
          else
            ['-', '9', '2', '2', '3', '3', '7', '2', '0', '3', '6', '8',
              '5', '4', '7', '7', '5', '8', '0', '8']).drop
          NumberBase.decimal.prefixLen)
      = some (2 ^ 63)) ∧
    (-(2 ^ 63) ≤ (-(2 ^ 63) : Int) ∧ (-(2 ^ 63) : Int) < 2 ^ 63) ∧
    litNumberResolveInt true NumberBase.decimal
      ['-', '9', '2', '2', '3', '3', '7', '2', '0', '3', '6', '8', '5',
        '4', '7', '7', '5', '8', '0', '8']
      = .ok (-(2 ^ 63)) := by
  refine ⟨by rfl, by norm_num, ?_⟩
  have h := (lit_number_resolve_narrowing true NumberBase.decimal
      ['-', '9', '2', '2', '3', '3', '7', '2', '0', '3', '6', '8', '5',
        '4', '7', '7', '5', '8', '0', '8'] (2 ^ 63) (by rfl)).1
      (by norm_num)
  simpa using h

/-- Splitting at the 0xFF delimiter is unambiguous when neither prefix
contains the delimiter byte. -/
theorem ffSplit : ∀ (p1 p2 t1 t2 : List Nat), 0xff ∉ p1 → 0xff ∉ p2 →
    p1 ++ 0xff :: t1 = p2 ++ 0xff :: t2 → p1 = p2 ∧ t1 = t2 := by
  intro p1
  induction p1 with
  | nil =>
    intro p2 t1 t2 h1 h2 h
    cases p2 with
    | nil =>
      simp only [List.nil_append] at h
      exact ⟨rfl, (List.cons.injEq _ _ _ _ ▸ h).2⟩
    | cons b p2' =>
      simp only [List.nil_append, List.cons_append, List.cons.injEq] at h
      exact absurd (h.1 ▸ List.mem_cons_self b p2') h2
  | cons a p1' ih =>
    intro p2 t1 t2 h1 h2 h
    cases p2 with
    | nil =>
      simp only [List.cons_append, List.nil_append, List.cons.injEq] at h
      exact absurd (h.1 ▸ List.mem_cons_self a p1') h1
    | cons b p2' =>
      simp only [List.cons_append, List.cons.injEq] at h
      obtain ⟨hab, htail⟩ := h
      have h1' : 0xff ∉ p1' := fun hm => h1 (List.mem_cons_of_mem a hm)
      have h2' : 0xff ∉ p2' := fun hm => h2 (List.mem_cons_of_mem b hm)
      obtain ⟨hp, ht⟩ := ih p2' t1 t2 h1' h2' htail
      exact ⟨by rw [hab, hp], ht⟩

/-- The byte stream of Hash::path determines the segment list, provided no
segment contains the 0xFF delimiter byte (true of all UTF-8 strings). -/
theorem pathStream_inj (kind : Nat) : ∀ (s1 s2 : List (List Nat)),
    (∀ p ∈ s1, 0xff ∉ p) → (∀ p ∈ s2, 0xff ∉ p) →
    pathStream kind s1 = pathStream kind s2 → s1 = s2 := by
  intro s1
  induction s1 with
  | nil =>
    intro s2 hb1 hb2 h
    cases s2 with
    | nil => rfl
    | cons p2 rest2 =>
      unfold pathStream at h
      have h' := List.append_cancel_left h
      simp [segmentBytes] at h'
  | cons p1 rest1 ih =>
    intro s2 hb1 hb2 h
    cases s2 with
    | nil =>
      unfold pathStream at h
      have h' := List.append_cancel_left h
      simp [segmentBytes] at h'
    | cons p2 rest2 =>
      unfold pathStream at h
      have h' := List.append_cancel_left h
      simp only [List.map_cons, List.flatten_cons, segmentBytes,
        List.append_assoc, List.cons_append] at h'
      obtain ⟨hp, ht⟩ := ffSplit p1 p2 _ _
        (hb1 p1 (List.mem_cons_self p1 rest1))
        (hb2 p2 (List.mem_cons_self p2 rest2)) h'
      have ht' := List.append_cancel_left ht
      have hrest := ih rest2
        (fun p hp2 => hb1 p (List.mem_cons_of_mem p1 hp2))
        (fun p hp2 => hb2 p (List.mem_cons_of_mem p2 hp2))
        (by unfold pathStream; rw [ht'])
      rw [hp, hrest]

/-- C9: the path hash feeds the kind tag and then, for each segment, the
segment's bytes followed by fixed delimiter bytes, so any two distinct
segment lists (in particular those whose concatenated contents coincide)
feed different byte streams to the hasher. -/
theorem hash_path_stream_distinct (kind : Nat) (s1 s2 : List (List Nat))
    (hb1 : ∀ p ∈ s1, 0xff ∉ p) (hb2 : ∀ p ∈ s2, 0xff ∉ p)
    (hne : s1 ≠ s2) : pathStream kind s1 ≠ pathStream kind s2 :=
  fun h => hne (pathStream_inj kind s1 s2 hb1 hb2 h)

/-- Witness for C9: the segment lists ["a", "b"] and ["ab"] have equal
concatenated contents but different byte streams. -/
theorem hash_path_stream_distinct_witness :
    (∀ p ∈ [[97], [98]], (0xff : Nat) ∉ p) ∧
    (∀ p ∈ [[97, 98]], (0xff : Nat) ∉ p) ∧
    (([[97], [98]] : List (List Nat)) ≠ [[97, 98]]) ∧
    pathStream 2 [[97], [98]] ≠ pathStream 2 [[97, 98]] :=
  ⟨by decide, by decide, by decide,
   hash_path_stream_distinct 2 [[97], [98]] [[97, 98]]
     (by decide) (by decide) (by decide)⟩

/-- C10: new_import never returns an error; a path without a last component
leaves the import table unchanged, otherwise the key (at, last component)
is bound to the full path with the given span, silently replacing any
existing entry under that key (prelude entries included). -/
theorem new_import_total (at_ : Item) (path : Item) (span : Span)
    (sourceId : Nat) (st : Inner) :
    (newImport at_ path span sourceId st).1 = .ok () ∧
    (newImport at_ path span sourceId st).2.imports
      = (match path.getLast? with
         | none => st.imports
         | some last =>
           (st.imports.insertHM ⟨at_, last⟩ ⟨path, some (span, sourceId)⟩).2) ∧
    (∀ last, path.getLast? = some last →
      ((newImport at_ path span sourceId st).2.imports).lookup ⟨at_, last⟩
        = some ⟨path, some (span, sourceId)⟩) := by
  cases hl : path.getLast? with
  | none =>
    refine ⟨by simp [newImport, hl], by simp [newImport, hl], ?_⟩
    intro last hlast
    exact Option.noConfusion hlast
  | some last =>
    refine ⟨by simp [newImport, hl], by simp [newImport, hl], ?_⟩
    intro l2 hl2
    obtain rfl : last = l2 := Option.some.inj hl2
    simp only [newImport, hl]
    exact AList.lookup_insertHM_self st.imports _ _

/-- Witness for C10: registering use mymod::dbg at the root of a builder
seeded with the default prelude replaces the prelude's dbg entry. -/
theorem new_import_total_witness :
    ((Item.ofStrings ["mymod", "dbg"]).getLast? = some (Component.str "dbg")) ∧
    ((newImport [] (Item.ofStrings ["mymod", "dbg"]) (3, 4) 0
        withDefaultPrelude).2.imports.lookup ⟨[], Component.str "dbg"⟩
      = some ⟨Item.ofStrings ["mymod", "dbg"], some ((3, 4), 0)⟩) :=
  ⟨by rfl,
   (new_import_total [] (Item.ofStrings ["mymod", "dbg"]) (3, 4) 0
      withDefaultPrelude).2.2 (Component.str "dbg") (by rfl)⟩

end Rune
